import Mathlib

/-!
Verification of `src/CrearPelicula.py` (repository R4C3RS3TH/api-pelicula).

The Python module is embedded shallowly:

* Python/JSON values are the inductive `Json`; numbers are modelled as
  integers (floating-point literals are outside the model).
* `json.dumps(x, ensure_ascii=False)` is `json_dumps` (default separators,
  i.e. a comma-space between items and a colon-space after keys, and the
  standard escaping of `"`, `\`, and control characters).
* `json.loads` is `json_loads`, a fuel-indexed recursive-descent parser for
  the same grammar (objects, arrays, strings with escapes, integers, the
  three keywords, with the four JSON whitespace characters skipped and
  duplicate object keys resolved last-wins as Python dicts do).
* Nondeterministic inputs of the handler (the generated UUID bits, the
  DynamoDB put outcome, the success/failure of the local log-file append and
  the timestamps produced by `iso_now`) are passed in explicitly as an
  `Oracle`; `os.environ` is a function `String → Option String`; the local
  log file is a `List Char` threaded through, and everything printed to the
  console is returned as a list of log entries.
* An uncaught Python exception is modelled by the `HandlerOutcome.raised`
  constructor of the handler's result.
-/

namespace CrearPelicula

/-- JSON/Python structured values; numbers are restricted to integers. -/
inductive Json where
  | null
  | bool (b : Bool)
  | num (n : Int)
  | str (s : String)
  | arr (elems : List Json)
  | obj (members : List (String × Json))
deriving Repr

/-- Lookup of a key in a dict, first binding wins (objects built by the
parser or by the handler never carry duplicate keys). -/
def objGet (ms : List (String × Json)) (k : String) : Option Json :=
  match ms with
  | [] => none
  | (k2, v) :: rest => if k2 = k then some v else objGet rest k

/-- Python dict assignment `d[k] = v`: replaces the value at an existing
key in place, otherwise appends the binding at the end. -/
def insertMember (ms : List (String × Json)) (k : String) (v : Json) :
    List (String × Json) :=
  match ms with
  | [] => [(k, v)]
  | (k2, v2) :: rest =>
    if k2 = k then (k2, v) :: rest else (k2, v2) :: insertMember rest k v

/-- Building a Python dict from parsed members in order: later duplicate
keys overwrite earlier ones, keeping the first position. -/
def dedupeMembers (ms : List (String × Json)) : List (String × Json) :=
  ms.foldl (fun acc m => insertMember acc m.1 m.2) []

mutual
/-- Structural equality test on values (Python `==` restricted to the
hashable shapes the code ever compares). -/
def Json.beq : Json → Json → Bool
  | .null, .null => true
  | .bool a, .bool b => a == b
  | .num a, .num b => a == b
  | .str a, .str b => a == b
  | .arr a, .arr b => Json.beqList a b
  | .obj a, .obj b => Json.beqMems a b
  | _, _ => false

/-- Elementwise equality test on lists of values. -/
def Json.beqList : List Json → List Json → Bool
  | [], [] => true
  | x :: xs, y :: ys => Json.beq x y && Json.beqList xs ys
  | _, _ => false

/-- Elementwise equality test on member lists. -/
def Json.beqMems : List (String × Json) → List (String × Json) → Bool
  | [], [] => true
  | (k1, v1) :: xs, (k2, v2) :: ys => k1 == k2 && Json.beq v1 v2 && Json.beqMems xs ys
  | _, _ => false
end

/-! ## Serialization: `json.dumps(x, ensure_ascii=False)` -/

/-- The decimal digit character for `d < 10`. -/
def digitChar (d : Nat) : Char := Char.ofNat (48 + d)

/-- Lowercase hexadecimal digit character for `d < 16`. -/
def hexDigChar (d : Nat) : Char :=
  if d < 10 then Char.ofNat (48 + d) else Char.ofNat (87 + d)

/-- Decimal digits of `n`, most significant first, by fuel recursion
(the fuel `n + 1` always suffices). -/
def natCharsAux : Nat → Nat → List Char
  | 0, _ => []
  | fuel + 1, n =>
    if n < 10 then [digitChar n]
    else natCharsAux fuel (n / 10) ++ [digitChar (n % 10)]

/-- Decimal rendering of a natural number, as Python prints it. -/
def natChars (n : Nat) : List Char := natCharsAux (n + 1) n

/-- Decimal rendering as a `String` (used by f-string interpolation). -/
def natStr (n : Nat) : String := String.mk (natChars n)

/-- Decimal rendering of an integer, as Python prints it. -/
def intChars : Int → List Char
  | .ofNat n => natChars n
  | .negSucc m => '-' :: natChars (m + 1)

/-- How one character appears inside a dumped string literal: `"` and `\`
are escaped, the control characters with short forms use them, the
remaining control characters use `\u00XX`, and everything else stands for
itself (`ensure_ascii=False`). -/
def escChar (c : Char) : List Char :=
  if c = '"' then ['\\', '"']
  else if c = '\\' then ['\\', '\\']
  else if c = '\n' then ['\\', 'n']
  else if c = '\t' then ['\\', 't']
  else if c = '\r' then ['\\', 'r']
  else if c = Char.ofNat 8 then ['\\', 'b']
  else if c = Char.ofNat 12 then ['\\', 'f']
  else if c.toNat < 32 then
    ['\\', 'u', '0', '0', hexDigChar (c.toNat / 16), hexDigChar (c.toNat % 16)]
  else [c]

/-- The escaped body of a string literal. -/
def escape : List Char → List Char
  | [] => []
  | c :: cs => escChar c ++ escape cs

mutual
/-- The text `json.dumps` produces for a value (default separators: a
comma-space between items, a colon-space after each key). -/
def dumpVal : Json → List Char
  | .null => "null".data
  | .bool true => "true".data
  | .bool false => "false".data
  | .num i => intChars i
  | .str s => '"' :: (escape s.toList ++ ['"'])
  | .arr [] => ['[', ']']
  | .arr (x :: xs) => '[' :: (dumpVal x ++ dumpArrTail xs ++ [']'])
  | .obj [] => ['{', '}']
  | .obj (m :: ms) => '{' :: (dumpMember m ++ dumpObjTail ms ++ ['}'])

/-- One `"key": value` member. -/
def dumpMember : String × Json → List Char
  | (k, v) => '"' :: (escape k.toList ++ ['"', ':', ' '] ++ dumpVal v)

/-- The remaining elements of a nonempty array, each preceded by `, `. -/
def dumpArrTail : List Json → List Char
  | [] => []
  | x :: xs => ',' :: ' ' :: (dumpVal x ++ dumpArrTail xs)

/-- The remaining members of a nonempty object, each preceded by `, `. -/
def dumpObjTail : List (String × Json) → List Char
  | [] => []
  | m :: ms => ',' :: ' ' :: (dumpMember m ++ dumpObjTail ms)
end

/-- The whole of `json.dumps(v, ensure_ascii=False)`. -/
def json_dumps (v : Json) : String := String.mk (dumpVal v)

/-! ## Parsing: `json.loads` -/

/-- The four whitespace characters `json.loads` skips. -/
def isWsChar (c : Char) : Bool := c == ' ' || c == '\t' || c == '\n' || c == '\r'

/-- Drop leading JSON whitespace. -/
def skipWs : List Char → List Char
  | [] => []
  | c :: rest => if isWsChar c then skipWs rest else c :: rest

/-- Prepend a decoded character to the result of parsing the remainder of a
string literal. -/
def pcons (c : Char) (r : Option (List Char × List Char)) :
    Option (List Char × List Char) :=
  r.map fun p => (c :: p.1, p.2)

/-- The value of one hexadecimal digit (either case accepted). -/
def hexVal (c : Char) : Option Nat :=
  if 48 ≤ c.toNat ∧ c.toNat ≤ 57 then some (c.toNat - 48)
  else if 97 ≤ c.toNat ∧ c.toNat ≤ 102 then some (c.toNat - 87)
  else if 65 ≤ c.toNat ∧ c.toNat ≤ 70 then some (c.toNat - 55)
  else none

/-- The body of a string literal after the opening quote, up to and past the
closing quote: the escapes of RFC 8259 are decoded, unescaped control
characters are rejected (strict mode), and `\uXXXX` must denote a valid
scalar (surrogate pairs are outside the model). -/
def parseStringBody : List Char → Option (List Char × List Char)
  | [] => none
  | c :: rest =>
    if c = '"' then some ([], rest)
    else if c = '\\' then
      match rest with
      | [] => none
      | e :: rest2 =>
        if e = '"' then pcons '"' (parseStringBody rest2)
        else if e = '\\' then pcons '\\' (parseStringBody rest2)
        else if e = '/' then pcons '/' (parseStringBody rest2)
        else if e = 'b' then pcons (Char.ofNat 8) (parseStringBody rest2)
        else if e = 'f' then pcons (Char.ofNat 12) (parseStringBody rest2)
        else if e = 'n' then pcons '\n' (parseStringBody rest2)
        else if e = 'r' then pcons '\r' (parseStringBody rest2)
        else if e = 't' then pcons '\t' (parseStringBody rest2)
        else if e = 'u' then
          match rest2 with
          | h1 :: h2 :: h3 :: h4 :: rest3 =>
            match hexVal h1, hexVal h2, hexVal h3, hexVal h4 with
            | some a, some b, some c2, some d =>
              let code := ((a * 16 + b) * 16 + c2) * 16 + d
              if Nat.isValidChar code then pcons (Char.ofNat code) (parseStringBody rest3)
              else none
            | _, _, _, _ => none
          | _ => none
        else none
    else if c.toNat < 32 then none
    else pcons c (parseStringBody rest)

/-- Decimal digit test. -/
def isDigitChar (c : Char) : Bool := 48 ≤ c.toNat && c.toNat ≤ 57

/-- Consume a run of decimal digits, extending the accumulator. -/
def parseDigits : Nat → List Char → Nat × List Char
  | acc, [] => (acc, [])
  | acc, c :: rest =>
    if isDigitChar c then parseDigits (acc * 10 + (c.toNat - 48)) rest
    else (acc, c :: rest)

/-- An integer literal per the JSON grammar: an optional minus sign, then
either a single `0` or a nonzero digit followed by digits. Fraction and
exponent parts produce Python floats and are outside the model. -/
def parseNumber : List Char → Option (Int × List Char)
  | [] => none
  | c :: rest =>
    if c = '-' then
      match rest with
      | [] => none
      | c2 :: rest2 =>
        if c2 = '0' then some (0, rest2)
        else if isDigitChar c2 then
          let p := parseDigits (c2.toNat - 48) rest2
          some (-(p.1 : Int), p.2)
        else none
    else if c = '0' then some (0, rest)
    else if isDigitChar c then
      let p := parseDigits (c.toNat - 48) rest
      some ((p.1 : Int), p.2)
    else none

/-- The elements of a nonempty array, starting at the first value (leading
whitespace already skipped), through the closing bracket. `pv` parses one
value; the fuel bounds the number of elements. -/
def parseElemsF (pv : List Char → Option (Json × List Char)) :
    Nat → List Char → Option (List Json × List Char)
  | 0, _ => none
  | n + 1, l =>
    match pv l with
    | none => none
    | some (v, r) =>
      match skipWs r with
      | [] => none
      | c2 :: r2 =>
        if c2 = ',' then
          match parseElemsF pv n (skipWs r2) with
          | some (vs, r3) => some (v :: vs, r3)
          | none => none
        else if c2 = ']' then some ([v], r2)
        else none

/-- The members of a nonempty object, starting at the first key's opening
quote (leading whitespace already skipped), through the closing brace. -/
def parseMembersF (pv : List Char → Option (Json × List Char)) :
    Nat → List Char → Option (List (String × Json) × List Char)
  | 0, _ => none
  | n + 1, l =>
    match l with
    | [] => none
    | c :: r =>
      if c = '"' then
        match parseStringBody r with
        | none => none
        | some (k, r1) =>
          match skipWs r1 with
          | [] => none
          | c2 :: r2 =>
            if c2 = ':' then
              match pv (skipWs r2) with
              | none => none
              | some (v, r3) =>
                match skipWs r3 with
                | [] => none
                | c3 :: r4 =>
                  if c3 = ',' then
                    match parseMembersF pv n (skipWs r4) with
                    | some (ms, r5) => some ((String.mk k, v) :: ms, r5)
                    | none => none
                  else if c3 = '}' then some ([(String.mk k, v)], r4)
                  else none
            else none
      else none

/-- One JSON value starting at a non-whitespace character. The fuel bounds
the nesting depth and element counts; `jsizeV` below measures the fuel a
value needs, and the top entry point always supplies enough. -/
def parseVal : Nat → List Char → Option (Json × List Char)
  | 0, _ => none
  | n + 1, l =>
    match l with
    | [] => none
    | c :: rest =>
      if c = '"' then
        match parseStringBody rest with
        | some (s, r) => some (.str (String.mk s), r)
        | none => none
      else if c = '{' then
        match skipWs rest with
        | [] => none
        | c2 :: r2 =>
          if c2 = '}' then some (.obj [], r2)
          else
            match parseMembersF (parseVal n) n (c2 :: r2) with
            | some (ms, r3) => some (.obj (dedupeMembers ms), r3)
            | none => none
      else if c = '[' then
        match skipWs rest with
        | [] => none
        | c2 :: r2 =>
          if c2 = ']' then some (.arr [], r2)
          else
            match parseElemsF (parseVal n) n (c2 :: r2) with
            | some (vs, r3) => some (.arr vs, r3)
            | none => none
      else if c = 't' then
        match rest with
        | 'r' :: 'u' :: 'e' :: r => some (.bool true, r)
        | _ => none
      else if c = 'f' then
        match rest with
        | 'a' :: 'l' :: 's' :: 'e' :: r => some (.bool false, r)
        | _ => none
      else if c = 'n' then
        match rest with
        | 'u' :: 'l' :: 'l' :: r => some (.null, r)
        | _ => none
      else
        match parseNumber (c :: rest) with
        | some (i, r) => some (.num i, r)
        | none => none

/-- The whole of `json.loads(s)` (for the integer-numbered fragment of JSON): parse one
value surrounded by optional whitespace and reject trailing data. -/
def json_loads (s : String) : Option Json :=
  match parseVal (s.toList.length + 1) (skipWs s.toList) with
  | some (v, r) => if skipWs r = [] then some v else none
  | none => none

/-! ## Logger and log-file reader

Timestamps produced by `iso_now` are injected as explicit `String`
arguments (`make_log_entry` takes the timestamp it merges); console output
is returned as the list of entries printed, in order. -/

/-- The fixed log-file path. -/
def LOG_PATH : String := "/tmp/crear_pelicula.logl"

/-- A single quote character (Python `repr` quoting for `KeyError`). -/
def squote : String := String.mk [Char.ofNat 39]

/-- Python `str(e)` for `e = KeyError(k)` with a string key: the key wrapped in
single quotes. -/
def keyErrorStr (k : String) : String := squote ++ k ++ squote

/-- A log entry: the category under `tipo` and the timestamp merged in
front of the event fields under `log_datos`. (No call site passes a
`timestamp` key of its own, so plain cons models the dict merge.) -/
def make_log_entry (tipo : String) (now : String) (datos : List (String × Json)) : Json :=
  .obj [("tipo", .str tipo), ("log_datos", .obj (("timestamp", .str now) :: datos))]

/-- The entry `append_log_file` prints when the file write fails. -/
def appendWarnEntry (path : String) (now : String) : Json :=
  make_log_entry "ERROR" now
    [("action", .str "append_log_file"),
     ("message", .str "failed to append log file"),
     ("error", .str ("could not write to " ++ path))]

/-- Append one serialized entry plus a newline to the log file. The write
outcome is injected as `ok`; on failure nothing is written and a single
warning entry is printed to the console instead, so the failure never
propagates. Returns the new file contents and the entries printed. -/
def append_log_file (entry : Json) (path : String) (file : List Char) (ok : Bool)
    (now : String) : List Char × List Json :=
  if ok then (file ++ (dumpVal entry ++ ['\n']), [])
  else (file, [appendWarnEntry path now])

/-- Whitespace stripped by Python `str.strip` (the ASCII fragment). -/
def isPySpace (c : Char) : Bool :=
  c == ' ' || c == '\t' || c == '\n' || c == '\r' || c == Char.ofNat 11 || c == Char.ofNat 12

/-- Python `str.strip`. -/
def stripChars (l : List Char) : List Char :=
  ((l.dropWhile isPySpace).reverse.dropWhile isPySpace).reverse

/-- Split file contents at newlines, as text-mode file iteration yields
lines: the empty file has no lines, and a final fragment without a trailing
newline is still a line. (Python yields each line with its newline attached;
since the reader strips every line, dropping the newline here is
equivalent.) -/
def splitLines : List Char → List (List Char)
  | [] => []
  | c :: rest =>
    if c = '\n' then [] :: splitLines rest
    else
      match splitLines rest with
      | [] => [[c]]
      | l :: ls => (c :: l) :: ls

/-- The entry `load_logs` prints for an unparseable line. -/
def loadErrEntry (path : String) (now : String) (lineNo : Nat) : Json :=
  make_log_entry "ERROR" now
    [("action", .str "load_logs"),
     ("message", .str ("invalid json on line " ++ natStr lineNo ++ " of " ++ path))]

/-- One pass over the numbered lines: blank lines are skipped, parsed lines
are collected in order, and each unparseable line is skipped with one error
entry printed (timestamps for successive error entries come from `ts`). -/
def load_logs_go (path : String) (ts : Nat → String) :
    List (List Char) → Nat → Nat → List Json × List Json
  | [], _, _ => ([], [])
  | line :: rest, lineNo, errIdx =>
    let s := stripChars line
    if s = [] then load_logs_go path ts rest (lineNo + 1) errIdx
    else
      match json_loads (String.mk s) with
      | some v =>
        let p := load_logs_go path ts rest (lineNo + 1) errIdx
        (v :: p.1, p.2)
      | none =>
        let p := load_logs_go path ts rest (lineNo + 1) (errIdx + 1)
        (p.1, loadErrEntry path (ts errIdx) lineNo :: p.2)

/-- The reader `load_logs(path)`: `none` models a nonexistent file (empty result, no
error); otherwise the file is read line by line starting at line 1.
Returns the parsed entries and the error entries printed. -/
def load_logs (file : Option (List Char)) (path : String) (ts : Nat → String) :
    List Json × List Json :=
  match file with
  | none => ([], [])
  | some contents => load_logs_go path ts (splitLines contents) 1 0

/-- Whether `e.get("tipo") == tipo` holds for an entry dict `e`: the value
must be present and be exactly that string. -/
def hasTipo (e : List (String × Json)) (tipo : String) : Bool :=
  match objGet e "tipo" with
  | some (.str s) => s == tipo
  | _ => false

/-- Entries whose `tipo` equals the given category, in original order;
entries lacking the field never match. -/
def filter_by_tipo (entries : List (List (String × Json))) (tipo : String) :
    List (List (String × Json)) :=
  entries.filter (fun e => hasTipo e tipo)

/-- The key an entry is counted under: its `tipo` value, or `"UNKNOWN"`
when the field is missing. -/
def tipoKey (e : List (String × Json)) : Json :=
  (objGet e "tipo").getD (.str "UNKNOWN")

/-- One step `counts[t] = counts.get(t, 0) + 1` on an insertion-ordered dict. -/
def countBump (counts : List (Json × Nat)) (k : Json) : List (Json × Nat) :=
  match counts with
  | [] => [(k, 1)]
  | (k2, n) :: rest =>
    if Json.beq k2 k then (k2, n + 1) :: rest else (k2, n) :: countBump rest k

/-- Category counts over a list of entries. -/
def count_by_tipo (entries : List (List (String × Json))) : List (Json × Nat) :=
  entries.foldl (fun counts e => countBump counts (tipoKey e)) []

/-- The sum of all counts in a count dict. -/
def sumCounts (counts : List (Json × Nat)) : Nat := (counts.map Prod.snd).sum

/-! ## The Lambda handler -/

/-- The last `w` lowercase hex digits of `n`, most significant first. -/
def hexPad : Nat → Nat → List Char
  | 0, _ => []
  | w + 1, n => hexPad w (n / 16) ++ [hexDigChar (n % 16)]

/-- Python `str(uuid.UUID(int=n))`: 32 hex digits grouped 8-4-4-4-12 with
hyphens. `uuid.uuid4()` supplies the 128 random bits, injected here as
`n`. -/
def uuidStr (n : Nat) : String :=
  let h := hexPad 32 n
  String.mk (h.take 8 ++ '-' :: ((h.drop 8).take 4 ++ '-' ::
    ((h.drop 12).take 4 ++ '-' :: ((h.drop 16).take 4 ++ '-' :: h.drop 20))))

/-- The record written to the store: caller tenant, fresh identifier under
the key `uuid`, caller payload. -/
def mkPelicula (tenant : Json) (u : String) (datos : Json) : List (String × Json) :=
  [("tenant_id", tenant), ("uuid", .str u), ("pelicula_datos", datos)]

/-- Outcome of `table.put_item`, injected: success carries the (already
JSON-coerced) client response; `clientError` models `BotoCoreError` or
`ClientError` with its message; `unexpected` models any other exception
with its type name and message. -/
inductive PutOutcome where
  | success (resp : Json)
  | clientError (msg : String)
  | unexpected (ty : String) (msg : String)

/-- The expression `getattr(response, "get", ...)("ResponseMetadata", None)`: the
`ResponseMetadata` member when the response is a dict, else `None`. -/
def respMetadata (resp : Json) : Json :=
  match resp with
  | .obj ms => (objGet ms "ResponseMetadata").getD .null
  | _ => .null

/-- The handler's nondeterministic inputs: the 128 random UUID bits, the
store outcome, whether the log-file append succeeds, and the two
timestamps `iso_now` may produce during the call. -/
structure Oracle where
  uuidBits : Nat
  put : PutOutcome
  appendOk : Bool
  t1 : String
  t2 : String

/-- An HTTP-style response object. -/
structure Response where
  statusCode : Nat
  body : String
deriving Repr, DecidableEq

/-- Handler termination: a returned response, or an uncaught exception of
the named type. -/
inductive HandlerOutcome where
  | ok (r : Response)
  | raised (exnType : String)
deriving Repr

/-- Everything one handler call produces: its outcome, the console lines
(as entries) in order, and the final log-file contents. -/
structure HResult where
  outcome : HandlerOutcome
  printed : List Json
  file : List Char

/-- Input normalization (the first `try` block): take `event["body"]` with
a `{}` default (any failure, e.g. a non-dict event, also yields `{}`), and
if it is textual parse it, falling back to `{}` when the parse fails. -/
def getBody (event : Json) : Json :=
  match event with
  | .obj ms =>
    match objGet ms "body" with
    | none => .obj []
    | some (.str s) =>
      match json_loads s with
      | some v => v
      | none => .obj []
    | some v => v
  | _ => .obj []

/-- Print an entry, append it to the log file, and return the given
response: the common tail of every terminal path. -/
def finishWith (o : Oracle) (file : List Char) (entry : Json) (code : Nat)
    (respBody : Json) : HResult :=
  let p := append_log_file entry LOG_PATH file o.appendOk o.t2
  { outcome := .ok { statusCode := code, body := json_dumps respBody },
    printed := entry :: p.2, file := p.1 }

/-- The 400 path for a missing required field `k`. -/
def missingFieldResult (o : Oracle) (file : List Char) (body : Json) (k : String) : HResult :=
  finishWith o file
    (make_log_entry "ERROR" o.t1
      [("action", .str "parse_input"),
       ("message", .str "missing required field in body"),
       ("missing_field", .str (keyErrorStr k)),
       ("body", body)])
    400 (.obj [("error", .str ("missing required field: " ++ keyErrorStr k))])

/-- The handler `lambda_handler(event, context)`. The environment is a lookup
function; the store, UUID source, clock and file append outcome are the
oracle; `file` is the log file before the call. -/
def lambda_handler (event : Json) (env : String → Option String) (o : Oracle)
    (file : List Char) : HResult :=
  let body := getBody event
  match body with
  | .obj ms =>
    match objGet ms "tenant_id" with
    | none => missingFieldResult o file body "tenant_id"
    | some tenant =>
      match objGet ms "pelicula_datos" with
      | none => missingFieldResult o file body "pelicula_datos"
      | some datos =>
        let tableOk := match env "TABLE_NAME" with
          | none => false
          | some t => t ≠ ""
        if tableOk then
          let pelicula := mkPelicula tenant (uuidStr o.uuidBits) datos
          match o.put with
          | .success resp =>
            finishWith o file
              (make_log_entry "INFO" o.t1
                [("action", .str "create_movie"), ("status", .str "success"),
                 ("pelicula", .obj pelicula),
                 ("dynamodb_response_metadata", respMetadata resp)])
              200 (.obj [("pelicula", .obj pelicula), ("dynamodb_response", resp)])
          | .clientError msg =>
            finishWith o file
              (make_log_entry "ERROR" o.t1
                [("action", .str "create_movie"), ("status", .str "dynamodb_failed"),
                 ("error_message", .str msg), ("pelicula", .obj pelicula)])
              502 (.obj [("error", .str "dynamodb error"), ("details", .str msg)])
          | .unexpected ty msg =>
            finishWith o file
              (make_log_entry "ERROR" o.t1
                [("action", .str "create_movie"), ("status", .str "failed_unexpected"),
                 ("error_type", .str ty), ("error_message", .str msg),
                 ("pelicula", .obj pelicula)])
              500 (.obj [("error", .str "internal server error"), ("details", .str msg)])
        else
          finishWith o file
            (make_log_entry "ERROR" o.t1
              [("action", .str "env_check"),
               ("message", .str "TABLE_NAME not set in environment")])
            500 (.obj [("error", .str "server configuration error: TABLE_NAME missing")])
  | _ => { outcome := .raised "TypeError", printed := [], file := file }

/-! ## Auxiliary measures and well-formedness predicates -/

/-- A list that does not start with a decimal digit character, so a number
parse cannot run on into it. -/
def headNotDigit (l : List Char) : Prop :=
  ∀ c t, l = c :: t → isDigitChar c = false

mutual
/-- Fuel a value needs in `parseVal`: one unit per nesting level and per
container element. -/
def jsizeV : Json → Nat
  | .null => 1
  | .bool _ => 1
  | .num _ => 1
  | .str _ => 1
  | .arr l => 1 + jsizeL l
  | .obj l => 1 + jsizeM l

/-- Fuel the elements of an array need. -/
def jsizeL : List Json → Nat
  | [] => 0
  | x :: xs => 1 + jsizeV x + jsizeL xs

/-- Fuel the members of an object need. -/
def jsizeM : List (String × Json) → Nat
  | [] => 0
  | m :: ms => 1 + jsizeV m.2 + jsizeM ms
end

/-- Whether a member list binds the key `k`. -/
def hasKey : List (String × Json) → String → Bool
  | [], _ => false
  | (k2, _) :: ms, k => k2 == k || hasKey ms k

/-- Whether the keys of a member list are pairwise distinct. -/
def nodupKeys : List (String × Json) → Bool
  | [] => true
  | (k, _) :: ms => !(hasKey ms k) && nodupKeys ms

mutual
/-- Values that denote a Python object tree: every object level has
pairwise distinct keys, as every dict produced by `json.loads` or built by
this program does. -/
def pyShaped : Json → Bool
  | .null => true
  | .bool _ => true
  | .num _ => true
  | .str _ => true
  | .arr l => pyShapedL l
  | .obj ms => nodupKeys ms && pyShapedM ms

/-- All elements denote Python values. -/
def pyShapedL : List Json → Bool
  | [] => true
  | x :: xs => pyShaped x && pyShapedL xs

/-- All member values denote Python values. -/
def pyShapedM : List (String × Json) → Bool
  | [] => true
  | m :: ms => pyShaped m.2 && pyShapedM ms
end

/-! ## Character-level lemmas -/

lemma toNat_ofNat_valid (n : Nat) (h : n.isValidChar) : (Char.ofNat n).toNat = n := by
  simp [Char.ofNat, Char.toNat, h, Char.ofNatAux, UInt32.toNat, UInt32.ofNatCore]

lemma char_eq_of_toNat {a b : Char} (h : a.toNat = b.toNat) : a = b := by
  apply Char.ext
  apply UInt32.toNat.inj h

lemma char_eq_iff_toNat {a b : Char} : a = b ↔ a.toNat = b.toNat :=
  ⟨congrArg Char.toNat, char_eq_of_toNat⟩

lemma toNat_digitChar {d : Nat} (h : d < 10) : (digitChar d).toNat = 48 + d := by
  apply toNat_ofNat_valid
  exact Or.inl (by omega)

lemma toNat_hexDigChar {d : Nat} (h : d < 16) :
    (hexDigChar d).toNat = if d < 10 then 48 + d else 87 + d := by
  unfold hexDigChar
  split <;> (apply toNat_ofNat_valid; exact Or.inl (by omega))

lemma isWsChar_iff {c : Char} :
    isWsChar c = true ↔ c.toNat = 32 ∨ c.toNat = 9 ∨ c.toNat = 10 ∨ c.toNat = 13 := by
  simp only [isWsChar, Bool.or_eq_true, beq_iff_eq, char_eq_iff_toNat]
  rw [show (' ' : Char).toNat = 32 from rfl, show ('\t' : Char).toNat = 9 from rfl,
    show ('\n' : Char).toNat = 10 from rfl, show ('\r' : Char).toNat = 13 from rfl]
  tauto

lemma isWsChar_false {c : Char}
    (h : ¬(c.toNat = 32 ∨ c.toNat = 9 ∨ c.toNat = 10 ∨ c.toNat = 13)) :
    isWsChar c = false := by
  rw [Bool.eq_false_iff]
  intro hc
  exact h (isWsChar_iff.mp hc)

lemma isDigitChar_iff {c : Char} :
    isDigitChar c = true ↔ 48 ≤ c.toNat ∧ c.toNat ≤ 57 := by
  simp [isDigitChar, Bool.and_eq_true, decide_eq_true_iff]

lemma isDigitChar_false {c : Char} (h : ¬(48 ≤ c.toNat ∧ c.toNat ≤ 57)) :
    isDigitChar c = false := by
  rw [Bool.eq_false_iff]
  intro hc
  exact h (isDigitChar_iff.mp hc)

lemma isDigitChar_digitChar {d : Nat} (h : d < 10) : isDigitChar (digitChar d) = true := by
  rw [isDigitChar_iff, toNat_digitChar h]
  omega

lemma digitChar_ne {d : Nat} (h : d < 10) {c : Char}
    (hc : c.toNat < 48 ∨ 57 < c.toNat) : digitChar d ≠ c := by
  intro he
  have := congrArg Char.toNat he
  rw [toNat_digitChar h] at this
  omega

lemma isWsChar_digitChar {d : Nat} (h : d < 10) : isWsChar (digitChar d) = false := by
  apply isWsChar_false
  rw [toNat_digitChar h]
  omega

lemma hexVal_hexDigChar {d : Nat} (h : d < 16) : hexVal (hexDigChar d) = some d := by
  unfold hexVal
  rw [toNat_hexDigChar h]
  by_cases h10 : d < 10
  · rw [if_pos h10, if_pos (by omega)]
    simp only [Option.some.injEq]
    omega
  · rw [if_neg h10, if_neg (by omega), if_pos (by omega)]
    simp only [Option.some.injEq]
    omega

lemma headNotDigit_nil : headNotDigit [] := by
  intro c t h
  cases h

lemma headNotDigit_cons {c : Char} {t : List Char} (h : ¬(48 ≤ c.toNat ∧ c.toNat ≤ 57)) :
    headNotDigit (c :: t) := by
  intro c2 t2 he
  cases he
  exact isDigitChar_false h

/-! ## Decimal digits round-trip -/

lemma natCharsAux_congr : ∀ f1 f2 n, n < f1 → n < f2 →
    natCharsAux f1 n = natCharsAux f2 n := by
  intro f1
  induction f1 with
  | zero => intro f2 n h; omega
  | succ g ih =>
    intro f2 n h1 h2
    match f2, h2 with
    | f2 + 1, h2 =>
      show natCharsAux (g + 1) n = natCharsAux (f2 + 1) n
      unfold natCharsAux
      by_cases h10 : n < 10
      · rw [if_pos h10, if_pos h10]
      · rw [if_neg h10, if_neg h10, ih f2 (n / 10) (by omega) (by omega)]

lemma natChars_eq (n : Nat) :
    natChars n = if n < 10 then [digitChar n]
      else natChars (n / 10) ++ [digitChar (n % 10)] := by
  unfold natChars
  conv_lhs => rw [natCharsAux]
  by_cases h10 : n < 10
  · rw [if_pos h10, if_pos h10]
  · rw [if_neg h10, if_neg h10,
      natCharsAux_congr n (n / 10 + 1) (n / 10) (by omega) (by omega)]

lemma natChars_head (n : Nat) :
    ∃ d ds, natChars n = digitChar d :: ds ∧ d < 10 ∧ (1 ≤ n → d ≠ 0) := by
  induction n using Nat.strong_induction_on with
  | _ n ih =>
    rw [natChars_eq]
    by_cases h10 : n < 10
    · exact ⟨n, [], by rw [if_pos h10], h10, fun h1 => by omega⟩
    · obtain ⟨d, ds, hds, hd, hd0⟩ := ih (n / 10) (by omega)
      exact ⟨d, ds ++ [digitChar (n % 10)],
        by rw [if_neg h10, hds]; simp, hd, fun _ => hd0 (by omega)⟩

lemma mem_natChars : ∀ n c, c ∈ natChars n → ∃ d, d < 10 ∧ c = digitChar d := by
  intro n
  induction n using Nat.strong_induction_on with
  | _ n ih =>
    intro c hc
    rw [natChars_eq] at hc
    by_cases h10 : n < 10
    · rw [if_pos h10] at hc
      simp at hc
      exact ⟨n, h10, hc⟩
    · rw [if_neg h10] at hc
      rcases List.mem_append.mp hc with h | h
      · exact ih (n / 10) (by omega) c h
      · simp at h
        exact ⟨n % 10, by omega, h⟩

lemma parseDigits_cons (acc : Nat) (c : Char) (rest : List Char) :
    parseDigits acc (c :: rest) =
      if isDigitChar c = true then parseDigits (acc * 10 + (c.toNat - 48)) rest
      else (acc, c :: rest) := rfl

lemma parseDigits_natChars : ∀ n acc rest,
    parseDigits acc (natChars n ++ rest) =
      parseDigits (acc * 10 ^ (natChars n).length + n) rest := by
  intro n
  induction n using Nat.strong_induction_on with
  | _ n ih =>
    intro acc rest
    by_cases h10 : n < 10
    · rw [natChars_eq, if_pos h10]
      show parseDigits acc (digitChar n :: rest) = _
      rw [parseDigits_cons, isDigitChar_digitChar h10, if_pos rfl, toNat_digitChar h10]
      have h48 : acc * 10 + (48 + n - 48) = acc * 10 ^ ([digitChar n]).length + n := by
        rw [List.length_singleton, pow_one]
        omega
      rw [h48]
    · rw [natChars_eq, if_neg h10, List.append_assoc,
        ih (n / 10) (by omega) acc ([digitChar (n % 10)] ++ rest)]
      show parseDigits _ (digitChar (n % 10) :: rest) = _
      rw [parseDigits_cons, isDigitChar_digitChar (by omega : n % 10 < 10), if_pos rfl,
        toNat_digitChar (by omega : n % 10 < 10)]
      congr 1
      rw [List.length_append, List.length_singleton, pow_succ]
      have hdm : n % 10 + 10 * (n / 10) = n := by omega
      have h48 : 48 + n % 10 - 48 = n % 10 := by omega
      rw [h48]
      ring_nf
      rw [show acc * 10 ^ (natChars (n / 10)).length * 10 + n / 10 * 10 + n % 10 =
        acc * 10 ^ (natChars (n / 10)).length * 10 + (n % 10 + 10 * (n / 10)) by ring, hdm]

lemma parseDigits_stop (acc : Nat) {rest : List Char} (h : headNotDigit rest) :
    parseDigits acc rest = (acc, rest) := by
  cases rest with
  | nil => rfl
  | cons c t =>
    unfold parseDigits
    rw [h c t rfl]
    simp

lemma digitChar_zero : digitChar 0 = '0' := by decide

lemma parseNumber_cons (c : Char) (rest : List Char) :
    parseNumber (c :: rest) =
      if c = '-' then
        (match rest with
         | [] => none
         | c2 :: rest2 =>
           if c2 = '0' then some ((0 : Int), rest2)
           else if isDigitChar c2 = true then
             let p := parseDigits (c2.toNat - 48) rest2
             some (-(p.1 : Int), p.2)
           else none)
      else if c = '0' then some ((0 : Int), rest)
      else if isDigitChar c = true then
        let p := parseDigits (c.toNat - 48) rest
        some ((p.1 : Int), p.2)
      else none := rfl

lemma digitChar_ne_zero {d : Nat} (hd : d < 10) (hd0 : d ≠ 0) : digitChar d ≠ '0' := by
  intro he
  have := congrArg Char.toNat he
  rw [toNat_digitChar hd, show ('0' : Char).toNat = 48 from rfl] at this
  omega

lemma parseNumber_natChars_pos {n : Nat} (hn : 1 ≤ n) {rest : List Char}
    (hrest : headNotDigit rest) :
    parseNumber (natChars n ++ rest) = some ((n : Int), rest) := by
  obtain ⟨d, ds, hds, hd, hd0⟩ := natChars_head n
  have hfull : parseDigits 0 (natChars n ++ rest) = (n, rest) := by
    rw [parseDigits_natChars, parseDigits_stop _ hrest]
    simp
  rw [hds] at hfull
  rw [show ((digitChar d :: ds) ++ rest) = digitChar d :: (ds ++ rest) from rfl,
    parseDigits_cons, isDigitChar_digitChar hd, if_pos rfl, toNat_digitChar hd,
    show 0 * 10 + (48 + d - 48) = d by omega] at hfull
  rw [hds]
  show parseNumber (digitChar d :: (ds ++ rest)) = _
  rw [parseNumber_cons, if_neg (digitChar_ne hd (by decide)),
    if_neg (digitChar_ne_zero hd (hd0 hn)), if_pos (isDigitChar_digitChar hd),
    toNat_digitChar hd]
  show some (((parseDigits (48 + d - 48) (ds ++ rest)).1 : Int),
    (parseDigits (48 + d - 48) (ds ++ rest)).2) = _
  rw [show 48 + d - 48 = d by omega, hfull]

lemma parseNumber_intChars (i : Int) {rest : List Char} (hrest : headNotDigit rest) :
    parseNumber (intChars i ++ rest) = some (i, rest) := by
  cases i with
  | ofNat n =>
    cases Nat.eq_zero_or_pos n with
    | inl h0 =>
      subst h0
      show parseNumber (natChars 0 ++ rest) = _
      rw [natChars_eq]
      simp only [if_pos (by omega : (0:Nat) < 10), digitChar_zero]
      show parseNumber ('0' :: rest) = _
      rw [parseNumber_cons, if_neg (by decide : ¬('0' : Char) = '-'), if_pos rfl]
      rfl
    | inr hpos =>
      show parseNumber (natChars n ++ rest) = _
      rw [parseNumber_natChars_pos hpos hrest]
      rfl
  | negSucc m =>
    show parseNumber ('-' :: (natChars (m + 1) ++ rest)) = _
    obtain ⟨d, ds, hds, hd, hd0⟩ := natChars_head (m + 1)
    have hfull : parseDigits 0 (natChars (m + 1) ++ rest) = (m + 1, rest) := by
      rw [parseDigits_natChars, parseDigits_stop _ hrest]
      simp
    rw [hds] at hfull
    rw [show ((digitChar d :: ds) ++ rest) = digitChar d :: (ds ++ rest) from rfl,
      parseDigits_cons, isDigitChar_digitChar hd, if_pos rfl, toNat_digitChar hd,
      show 0 * 10 + (48 + d - 48) = d by omega] at hfull
    rw [parseNumber_cons, if_pos rfl, hds]
    show (if digitChar d = '0' then some ((0 : Int), ds ++ rest)
      else if isDigitChar (digitChar d) = true then
        let p := parseDigits ((digitChar d).toNat - 48) (ds ++ rest)
        some (-(p.1 : Int), p.2)
      else none) = _
    rw [if_neg (digitChar_ne_zero hd (hd0 (by omega))),
      if_pos (isDigitChar_digitChar hd), toNat_digitChar hd]
    show some (-((parseDigits (48 + d - 48) (ds ++ rest)).1 : Int),
      (parseDigits (48 + d - 48) (ds ++ rest)).2) = _
    rw [show 48 + d - 48 = d by omega, hfull]
    simp [Int.negSucc_eq]

/-! ## String-literal round-trip -/

lemma skipWs_cons_of {c : Char} (l : List Char) (h : isWsChar c = false) :
    skipWs (c :: l) = c :: l := by
  unfold skipWs
  rw [h]
  rfl

lemma skipWs_space (l : List Char) : skipWs (' ' :: l) = skipWs l := rfl

lemma parseStringBody_escape : ∀ (s rest : List Char),
    parseStringBody (escape s ++ ('"' :: rest)) = some (s, rest) := by
  intro s
  induction s with
  | nil =>
    intro rest
    show parseStringBody ('"' :: rest) = _
    unfold parseStringBody
    simp
  | cons c s ih =>
    intro rest
    show parseStringBody ((escChar c ++ escape s) ++ ('"' :: rest)) = _
    rw [List.append_assoc]
    unfold escChar
    split_ifs with h1 h2 h3 h4 h5 h6 h7 h8
    · subst h1
      show parseStringBody ('\\' :: '"' :: (escape s ++ ('"' :: rest))) = _
      unfold parseStringBody
      simp [pcons, ih]
    · subst h2
      show parseStringBody ('\\' :: '\\' :: (escape s ++ ('"' :: rest))) = _
      unfold parseStringBody
      simp [pcons, ih]
    · subst h3
      show parseStringBody ('\\' :: 'n' :: (escape s ++ ('"' :: rest))) = _
      unfold parseStringBody
      simp [pcons, ih]
    · subst h4
      show parseStringBody ('\\' :: 't' :: (escape s ++ ('"' :: rest))) = _
      unfold parseStringBody
      simp [pcons, ih]
    · subst h5
      show parseStringBody ('\\' :: 'r' :: (escape s ++ ('"' :: rest))) = _
      unfold parseStringBody
      simp [pcons, ih]
    · subst h6
      show parseStringBody ('\\' :: 'b' :: (escape s ++ ('"' :: rest))) = _
      unfold parseStringBody
      simp [pcons, ih]
    · subst h7
      show parseStringBody ('\\' :: 'f' :: (escape s ++ ('"' :: rest))) = _
      unfold parseStringBody
      simp [pcons, ih]
    · show parseStringBody ('\\' :: 'u' :: '0' :: '0' :: hexDigChar (c.toNat / 16) ::
        hexDigChar (c.toNat % 16) :: (escape s ++ ('"' :: rest))) = _
      have hhi : hexVal (hexDigChar (c.toNat / 16)) = some (c.toNat / 16) :=
        hexVal_hexDigChar (by omega)
      have hlo : hexVal (hexDigChar (c.toNat % 16)) = some (c.toNat % 16) :=
        hexVal_hexDigChar (by omega)
      have h0 : hexVal '0' = some 0 := rfl
      have hcode : ((0 * 16 + 0) * 16 + c.toNat / 16) * 16 + c.toNat % 16 = c.toNat := by
        omega
      have hvalid : Nat.isValidChar c.toNat := Or.inl (by omega)
      unfold parseStringBody
      simp only [h0, hhi, hlo]
      simp [hcode, hvalid, pcons, ih, Char.ofNat_toNat]
      have hc2 : c.toNat / 16 * 16 + c.toNat % 16 = c.toNat := by omega
      rw [hc2]
      exact ⟨hvalid, Char.ofNat_toNat c⟩
    · show parseStringBody (c :: (escape s ++ ('"' :: rest))) = _
      unfold parseStringBody
      simp [h1, h2, h8, pcons, ih]

/-! ## Size and well-formedness lemmas -/

lemma jsizeV_pos (v : Json) : 1 ≤ jsizeV v := by
  cases v <;> simp [jsizeV]

lemma jsizeV_mem_le_L {y : Json} : ∀ {l : List Json}, y ∈ l → jsizeV y ≤ jsizeL l := by
  intro l
  induction l with
  | nil => intro h; cases h
  | cons x xs ih =>
    intro h
    rcases List.mem_cons.mp h with h | h
    · subst h
      simp [jsizeL]
      omega
    · have := ih h
      simp [jsizeL]
      omega

lemma length_le_jsizeL : ∀ l : List Json, l.length ≤ jsizeL l := by
  intro l
  induction l with
  | nil => simp [jsizeL]
  | cons x xs ih =>
    simp [jsizeL]
    have := jsizeV_pos x
    omega

lemma jsizeV_mem_le_M {m : String × Json} : ∀ {ms : List (String × Json)},
    m ∈ ms → jsizeV m.2 ≤ jsizeM ms := by
  intro ms
  induction ms with
  | nil => intro h; cases h
  | cons x xs ih =>
    intro h
    rcases List.mem_cons.mp h with h | h
    · subst h
      simp [jsizeM]
      omega
    · have := ih h
      simp [jsizeM]
      omega

lemma length_le_jsizeM : ∀ ms : List (String × Json), ms.length ≤ jsizeM ms := by
  intro ms
  induction ms with
  | nil => simp [jsizeM]
  | cons x xs ih =>
    simp [jsizeM]
    have := jsizeV_pos x.2
    omega

lemma hasKey_append (ms1 ms2 : List (String × Json)) (k : String) :
    hasKey (ms1 ++ ms2) k = (hasKey ms1 k || hasKey ms2 k) := by
  induction ms1 with
  | nil => simp [hasKey]
  | cons m ms ih =>
    obtain ⟨k2, v2⟩ := m
    simp [hasKey, ih, Bool.or_assoc]

lemma hasKey_false_forall {ms : List (String × Json)} {k : String}
    (h : hasKey ms k = false) : ∀ m ∈ ms, m.1 ≠ k := by
  induction ms with
  | nil => intro m hm; cases hm
  | cons x xs ih =>
    obtain ⟨k2, v2⟩ := x
    rw [show hasKey ((k2, v2) :: xs) k = (k2 == k || hasKey xs k) from rfl,
      Bool.or_eq_false_iff] at h
    intro m hm
    rcases List.mem_cons.mp hm with hm | hm
    · subst hm
      intro he
      rw [beq_eq_false_iff_ne] at h
      exact h.1 he
    · exact ih h.2 m hm

lemma insertMember_not_hasKey {ms : List (String × Json)} {k : String} (v : Json)
    (h : hasKey ms k = false) : insertMember ms k v = ms ++ [(k, v)] := by
  induction ms with
  | nil => rfl
  | cons x xs ih =>
    obtain ⟨k2, v2⟩ := x
    rw [show hasKey ((k2, v2) :: xs) k = (k2 == k || hasKey xs k) from rfl,
      Bool.or_eq_false_iff] at h
    unfold insertMember
    rw [if_neg (by simpa using h.1), ih h.2]
    simp

lemma dedupe_go : ∀ (ms acc : List (String × Json)), nodupKeys ms = true →
    (∀ m ∈ ms, hasKey acc m.1 = false) →
    List.foldl (fun acc m => insertMember acc m.1 m.2) acc ms = acc ++ ms := by
  intro ms
  induction ms with
  | nil => intro acc _ _; simp
  | cons m ms ih =>
    intro acc hnd hacc
    obtain ⟨k, v⟩ := m
    rw [show nodupKeys ((k, v) :: ms) = (!(hasKey ms k) && nodupKeys ms) from rfl,
      Bool.and_eq_true, Bool.not_eq_true'] at hnd
    simp only [List.foldl_cons]
    rw [insertMember_not_hasKey v (hacc (k, v) (by simp))]
    rw [ih (acc ++ [(k, v)]) hnd.2 (by
      intro m2 hm2
      rw [hasKey_append, Bool.or_eq_false_iff]
      refine ⟨hacc m2 (by simp [hm2]), ?_⟩
      rw [show hasKey [(k, v)] m2.1 = (k == m2.1 || false) from rfl]
      simp
      exact Ne.symm (hasKey_false_forall hnd.1 m2 hm2))]
    simp

lemma dedupeMembers_eq_self {ms : List (String × Json)} (h : nodupKeys ms = true) :
    dedupeMembers ms = ms := by
  unfold dedupeMembers
  rw [dedupe_go ms [] h (fun m _ => rfl)]
  simp

/-! ## The head of dumped text -/

lemma dumpVal_head (v : Json) :
    ∃ c cs, dumpVal v = c :: cs ∧ isWsChar c = false ∧ c ≠ ']' := by
  cases v with
  | null => exact ⟨'n', _, rfl, by decide, by decide⟩
  | bool b => cases b with
    | true => exact ⟨'t', _, rfl, by decide, by decide⟩
    | false => exact ⟨'f', _, rfl, by decide, by decide⟩
  | num i =>
    cases i with
    | ofNat n =>
      obtain ⟨d, ds, hds, hd, _⟩ := natChars_head n
      refine ⟨digitChar d, ds, ?_, isWsChar_digitChar hd, digitChar_ne hd (by decide)⟩
      show intChars (Int.ofNat n) = _
      rw [show intChars (Int.ofNat n) = natChars n from rfl, hds]
    | negSucc m => exact ⟨'-', _, rfl, by decide, by decide⟩
  | str s => exact ⟨'"', _, rfl, by decide, by decide⟩
  | arr l => cases l with
    | nil => exact ⟨'[', _, rfl, by decide, by decide⟩
    | cons x xs => exact ⟨'[', _, rfl, by decide, by decide⟩
  | obj l => cases l with
    | nil => exact ⟨'{', _, rfl, by decide, by decide⟩
    | cons m ms => exact ⟨'{', _, rfl, by decide, by decide⟩

lemma skipWs_dumpVal (v : Json) (rest : List Char) :
    skipWs (dumpVal v ++ rest) = dumpVal v ++ rest := by
  obtain ⟨c, cs, hv, hws, _⟩ := dumpVal_head v
  rw [hv]
  exact skipWs_cons_of _ hws

lemma pyShapedL_mem {y : Json} : ∀ {l : List Json}, y ∈ l → pyShapedL l = true →
    pyShaped y = true := by
  intro l
  induction l with
  | nil => intro h; cases h
  | cons x xs ih =>
    intro h hl
    rw [show pyShapedL (x :: xs) = (pyShaped x && pyShapedL xs) from rfl,
      Bool.and_eq_true] at hl
    rcases List.mem_cons.mp h with h | h
    · subst h; exact hl.1
    · exact ih h hl.2

lemma pyShapedM_mem {m : String × Json} : ∀ {ms : List (String × Json)}, m ∈ ms →
    pyShapedM ms = true → pyShaped m.2 = true := by
  intro ms
  induction ms with
  | nil => intro h; cases h
  | cons x xs ih =>
    intro h hl
    rw [show pyShapedM (x :: xs) = (pyShaped x.2 && pyShapedM xs) from rfl,
      Bool.and_eq_true] at hl
    rcases List.mem_cons.mp h with h | h
    · subst h; exact hl.1
    · exact ih h hl.2

lemma intChars_head (i : Int) :
    ∃ c cs, intChars i = c :: cs ∧ (c = '-' ∨ ∃ d, d < 10 ∧ c = digitChar d) := by
  cases i with
  | ofNat n =>
    obtain ⟨d, ds, hds, hd, _⟩ := natChars_head n
    exact ⟨digitChar d, ds, by rw [show intChars (Int.ofNat n) = natChars n from rfl, hds],
      Or.inr ⟨d, hd, rfl⟩⟩
  | negSucc m => exact ⟨'-', _, rfl, Or.inl rfl⟩

/-! ## Parser completeness on dumped text -/

lemma parseElemsF_dump (pv : List Char → Option (Json × List Char)) :
    ∀ (xs : List Json) (x : Json) (m : Nat) (rest : List Char),
      xs.length < m →
      (∀ y ∈ x :: xs, ∀ r, headNotDigit r → pv (dumpVal y ++ r) = some (y, r)) →
      parseElemsF pv m (dumpVal x ++ (dumpArrTail xs ++ (']' :: rest))) =
        some (x :: xs, rest) := by
  intro xs
  induction xs with
  | nil =>
    intro x m rest hm hpv
    match m, hm with
    | m + 1, _ =>
      have h1 : pv (dumpVal x ++ (dumpArrTail [] ++ (']' :: rest))) =
          some (x, ']' :: rest) := by
        rw [show dumpArrTail [] ++ (']' :: rest) = ']' :: rest from rfl]
        exact hpv x (by simp) (']' :: rest) (headNotDigit_cons (by decide))
      have h2 : skipWs (']' :: rest) = ']' :: rest := skipWs_cons_of _ (by decide)
      show parseElemsF pv (m + 1) _ = _
      unfold parseElemsF
      rw [h1]
      simp [h2]
  | cons y ys ih =>
    intro x m rest hm hpv
    match m, hm with
    | m + 1, hm =>
      have htail : dumpArrTail (y :: ys) ++ (']' :: rest) =
          ',' :: ' ' :: (dumpVal y ++ (dumpArrTail ys ++ (']' :: rest))) := by
        simp [dumpArrTail]
      have h1 : pv (dumpVal x ++ (dumpArrTail (y :: ys) ++ (']' :: rest))) =
          some (x, dumpArrTail (y :: ys) ++ (']' :: rest)) :=
        hpv x (by simp) _ (by rw [htail]; exact headNotDigit_cons (by decide))
      have h2 : skipWs (',' :: ' ' :: (dumpVal y ++ (dumpArrTail ys ++ (']' :: rest)))) =
          ',' :: ' ' :: (dumpVal y ++ (dumpArrTail ys ++ (']' :: rest))) :=
        skipWs_cons_of _ (by decide)
      have h3 : skipWs (' ' :: (dumpVal y ++ (dumpArrTail ys ++ (']' :: rest)))) =
          dumpVal y ++ (dumpArrTail ys ++ (']' :: rest)) := by
        rw [skipWs_space, skipWs_dumpVal]
      have h4 := ih y m rest (Nat.lt_of_succ_lt_succ hm)
        (fun z hz => hpv z (List.mem_cons_of_mem x hz))
      show parseElemsF pv (m + 1) _ = _
      unfold parseElemsF
      rw [h1, htail]
      simp [h2, h3, h4]

lemma parseMembersF_dump (pv : List Char → Option (Json × List Char)) :
    ∀ (ms : List (String × Json)) (k : String) (v : Json) (m : Nat) (rest : List Char),
      ms.length < m →
      (∀ y ∈ (k, v) :: ms, ∀ r, headNotDigit r → pv (dumpVal y.2 ++ r) = some (y.2, r)) →
      parseMembersF pv m (dumpMember (k, v) ++ (dumpObjTail ms ++ ('}' :: rest))) =
        some ((k, v) :: ms, rest) := by
  intro ms
  induction ms with
  | nil =>
    intro k v m rest hm hpv
    match m, hm with
    | m + 1, _ =>
      have hshape : dumpMember (k, v) ++ (dumpObjTail [] ++ ('}' :: rest)) =
          '"' :: (escape k.toList ++ ('"' :: ':' :: ' ' :: (dumpVal v ++ ('}' :: rest)))) := by
        simp [dumpMember, dumpObjTail]
      have h1 : pv (dumpVal v ++ ('}' :: rest)) = some (v, '}' :: rest) :=
        hpv (k, v) (by simp) ('}' :: rest) (headNotDigit_cons (by decide))
      have h2 : skipWs ('"' :: (':' :: ' ' :: (dumpVal v ++ ('}' :: rest)))) =
          '"' :: (':' :: ' ' :: (dumpVal v ++ ('}' :: rest))) :=
        skipWs_cons_of _ (by decide)
      have h3 : skipWs (':' :: ' ' :: (dumpVal v ++ ('}' :: rest))) =
          ':' :: ' ' :: (dumpVal v ++ ('}' :: rest)) := skipWs_cons_of _ (by decide)
      have h4 : skipWs (' ' :: (dumpVal v ++ ('}' :: rest))) = dumpVal v ++ ('}' :: rest) := by
        rw [skipWs_space, skipWs_dumpVal]
      have h5 : skipWs ('}' :: rest) = '}' :: rest := skipWs_cons_of _ (by decide)
      show parseMembersF pv (m + 1) _ = _
      rw [hshape]
      unfold parseMembersF
      simp [parseStringBody_escape, h1, h3, h4, h5]
  | cons m2 ms2 ih =>
    intro k v m rest hm hpv
    obtain ⟨k2, v2⟩ := m2
    match m, hm with
    | m + 1, hm =>
      have htail : dumpObjTail ((k2, v2) :: ms2) ++ ('}' :: rest) =
          ',' :: ' ' :: (dumpMember (k2, v2) ++ (dumpObjTail ms2 ++ ('}' :: rest))) := by
        simp [dumpObjTail]
      have hshape : dumpMember (k, v) ++ (dumpObjTail ((k2, v2) :: ms2) ++ ('}' :: rest)) =
          '"' :: (escape k.toList ++ ('"' :: ':' :: ' ' :: (dumpVal v ++
            (',' :: ' ' :: (dumpMember (k2, v2) ++ (dumpObjTail ms2 ++ ('}' :: rest))))))) := by
        rw [htail]
        simp [dumpMember]
      have h1 : pv (dumpVal v ++ (',' :: ' ' :: (dumpMember (k2, v2) ++
          (dumpObjTail ms2 ++ ('}' :: rest))))) =
          some (v, ',' :: ' ' :: (dumpMember (k2, v2) ++ (dumpObjTail ms2 ++ ('}' :: rest)))) :=
        hpv (k, v) (by simp) _ (headNotDigit_cons (by decide))
      have h3 : skipWs (':' :: ' ' :: (dumpVal v ++ (',' :: ' ' :: (dumpMember (k2, v2) ++
          (dumpObjTail ms2 ++ ('}' :: rest)))))) =
          ':' :: ' ' :: (dumpVal v ++ (',' :: ' ' :: (dumpMember (k2, v2) ++
            (dumpObjTail ms2 ++ ('}' :: rest))))) := skipWs_cons_of _ (by decide)
      have h4 : skipWs (' ' :: (dumpVal v ++ (',' :: ' ' :: (dumpMember (k2, v2) ++
          (dumpObjTail ms2 ++ ('}' :: rest)))))) =
          dumpVal v ++ (',' :: ' ' :: (dumpMember (k2, v2) ++
            (dumpObjTail ms2 ++ ('}' :: rest)))) := by
        rw [skipWs_space, skipWs_dumpVal]
      have h5 : skipWs (',' :: ' ' :: (dumpMember (k2, v2) ++
          (dumpObjTail ms2 ++ ('}' :: rest)))) =
          ',' :: ' ' :: (dumpMember (k2, v2) ++ (dumpObjTail ms2 ++ ('}' :: rest))) :=
        skipWs_cons_of _ (by decide)
      have h6 : skipWs (' ' :: (dumpMember (k2, v2) ++ (dumpObjTail ms2 ++ ('}' :: rest)))) =
          dumpMember (k2, v2) ++ (dumpObjTail ms2 ++ ('}' :: rest)) := by
        rw [skipWs_space]
        rw [show dumpMember (k2, v2) ++ (dumpObjTail ms2 ++ ('}' :: rest)) =
            '"' :: (escape k2.toList ++ ('"' :: ':' :: ' ' :: (dumpVal v2 ++
              (dumpObjTail ms2 ++ ('}' :: rest))))) by simp [dumpMember]]
        exact skipWs_cons_of _ (by decide)
      have h7 := ih k2 v2 m rest (Nat.lt_of_succ_lt_succ hm)
        (fun z hz => hpv z (List.mem_cons_of_mem (k, v) hz))
      show parseMembersF pv (m + 1) _ = _
      rw [hshape]
      unfold parseMembersF
      simp [parseStringBody_escape, h1, h3, h4, h5, h6, h7]

lemma parseVal_dump : ∀ (n : Nat) (v : Json) (rest : List Char),
    jsizeV v ≤ n → pyShaped v = true → headNotDigit rest →
    parseVal n (dumpVal v ++ rest) = some (v, rest) := by
  intro n
  induction n using Nat.strong_induction_on with
  | _ n ih =>
    intro v rest hsz hpy hnd
    cases n with
    | zero => exact absurd (Nat.le_trans (jsizeV_pos v) hsz) (by omega)
    | succ n =>
      cases v with
      | null =>
        rw [show dumpVal Json.null = ['n', 'u', 'l', 'l'] from rfl]
        simp only [List.cons_append, List.nil_append]
        simp [parseVal]
      | bool b =>
        cases b with
        | true =>
          rw [show dumpVal (Json.bool true) = ['t', 'r', 'u', 'e'] from rfl]
          simp only [List.cons_append, List.nil_append]
          simp [parseVal]
        | false =>
          rw [show dumpVal (Json.bool false) = ['f', 'a', 'l', 's', 'e'] from rfl]
          simp only [List.cons_append, List.nil_append]
          simp [parseVal]
      | num i =>
        obtain ⟨c, cs, hic, hc⟩ := intChars_head i
        have hcne : c ≠ '"' ∧ c ≠ '{' ∧ c ≠ '[' ∧ c ≠ 't' ∧ c ≠ 'f' ∧ c ≠ 'n' := by
          rcases hc with hc | ⟨d, hd, hc⟩
          · subst hc
            refine ⟨by decide, by decide, by decide, by decide, by decide, by decide⟩
          · subst hc
            exact ⟨digitChar_ne hd (by decide), digitChar_ne hd (by decide),
              digitChar_ne hd (by decide), digitChar_ne hd (by decide),
              digitChar_ne hd (by decide), digitChar_ne hd (by decide)⟩
        have hpn : parseNumber (c :: (cs ++ rest)) = some (i, rest) := by
          rw [show c :: (cs ++ rest) = intChars i ++ rest by rw [hic]; rfl]
          exact parseNumber_intChars i hnd
        rw [show dumpVal (.num i) = intChars i from rfl, hic]
        simp only [List.cons_append]
        simp [parseVal, hcne.1, hcne.2.1, hcne.2.2.1, hcne.2.2.2.1,
          hcne.2.2.2.2.1, hcne.2.2.2.2.2, hpn]
      | str s =>
        have hps : parseStringBody (escape s.data ++ ('"' :: rest)) =
            some (s.data, rest) := parseStringBody_escape s.data rest
        rw [show dumpVal (.str s) = '"' :: (escape s.toList ++ ['"']) from rfl]
        simp only [List.cons_append]
        simp [parseVal, hps]
      | arr l =>
        cases l with
        | nil =>
          have hsw : skipWs (']' :: rest) = ']' :: rest := skipWs_cons_of _ (by decide)
          rw [show dumpVal (.arr []) = ['[', ']'] from rfl]
          simp only [List.cons_append, List.nil_append]
          simp [parseVal, hsw]
        | cons x xs =>
          obtain ⟨cx, csx, hx, hws, hne⟩ := dumpVal_head x
          have hszl : jsizeL (x :: xs) ≤ n := by
            have he : jsizeV (.arr (x :: xs)) = 1 + jsizeL (x :: xs) := rfl
            omega
          have hlen : xs.length < n := by
            have := length_le_jsizeL (x :: xs)
            simp at this
            omega
          have hpyl : pyShapedL (x :: xs) = true := hpy
          have helems := parseElemsF_dump (parseVal n) xs x n rest hlen (by
            intro y hy r hr
            exact ih n (Nat.lt_succ_self n) y r
              (Nat.le_trans (jsizeV_mem_le_L hy) hszl)
              (pyShapedL_mem hy hpyl) hr)
          have h1 : skipWs (dumpVal x ++ (dumpArrTail xs ++ (']' :: rest))) =
              cx :: (csx ++ (dumpArrTail xs ++ (']' :: rest))) := by
            rw [hx]
            simp only [List.cons_append]
            exact skipWs_cons_of _ hws
          have h2 : parseElemsF (parseVal n) n
              (cx :: (csx ++ (dumpArrTail xs ++ (']' :: rest)))) = some (x :: xs, rest) := by
            rw [show cx :: (csx ++ (dumpArrTail xs ++ (']' :: rest))) =
              dumpVal x ++ (dumpArrTail xs ++ (']' :: rest)) by rw [hx]; rfl]
            exact helems
          rw [show dumpVal (.arr (x :: xs)) =
            '[' :: (dumpVal x ++ dumpArrTail xs ++ [']']) from rfl]
          simp only [List.cons_append]
          simp [parseVal, h1, h2, hne]
      | obj l =>
        cases l with
        | nil =>
          have hsw : skipWs ('}' :: rest) = '}' :: rest := skipWs_cons_of _ (by decide)
          rw [show dumpVal (.obj []) = ['{', '}'] from rfl]
          simp only [List.cons_append, List.nil_append]
          simp [parseVal, hsw]
        | cons m0 ms =>
          obtain ⟨k, v⟩ := m0
          have hszm : jsizeM ((k, v) :: ms) ≤ n := by
            have he : jsizeV (.obj ((k, v) :: ms)) = 1 + jsizeM ((k, v) :: ms) := rfl
            omega
          have hlen : ms.length < n := by
            have := length_le_jsizeM ((k, v) :: ms)
            simp at this
            omega
          have hpym : nodupKeys ((k, v) :: ms) = true ∧ pyShapedM ((k, v) :: ms) = true := by
            rw [show pyShaped (.obj ((k, v) :: ms)) =
              (nodupKeys ((k, v) :: ms) && pyShapedM ((k, v) :: ms)) from rfl,
              Bool.and_eq_true] at hpy
            exact hpy
          have hmems := parseMembersF_dump (parseVal n) ms k v n rest hlen (by
            intro y hy r hr
            exact ih n (Nat.lt_succ_self n) y.2 r
              (Nat.le_trans (jsizeV_mem_le_M hy) hszm)
              (pyShapedM_mem hy hpym.2) hr)
          have hshape : dumpMember (k, v) ++ (dumpObjTail ms ++ ('}' :: rest)) =
              '"' :: (escape k.data ++ ('"' :: ':' :: ' ' :: (dumpVal v ++
                (dumpObjTail ms ++ ('}' :: rest))))) := by simp [dumpMember]
          have h1 : skipWs (dumpMember (k, v) ++ (dumpObjTail ms ++ ('}' :: rest))) =
              '"' :: (escape k.data ++ ('"' :: ':' :: ' ' :: (dumpVal v ++
                (dumpObjTail ms ++ ('}' :: rest))))) := by
            rw [hshape]
            exact skipWs_cons_of _ (by decide)
          have h2 : parseMembersF (parseVal n) n
              ('"' :: (escape k.data ++ ('"' :: ':' :: ' ' :: (dumpVal v ++
                (dumpObjTail ms ++ ('}' :: rest)))))) = some ((k, v) :: ms, rest) := by
            rw [← hshape]
            exact hmems
          rw [show dumpVal (.obj ((k, v) :: ms)) =
            '{' :: (dumpMember (k, v) ++ dumpObjTail ms ++ ['}']) from rfl]
          simp only [List.cons_append]
          simp [parseVal, h1, h2, dedupeMembers_eq_self hpym.1]

/-! ## The fuel bound and the top-level round-trip -/

lemma natChars_ne_nil (n : Nat) : natChars n ≠ [] := by
  rw [natChars_eq]
  split <;> simp

lemma jsizeL_le_arrTail (xs : List Json)
    (h : ∀ y ∈ xs, jsizeV y ≤ (dumpVal y).length) :
    jsizeL xs ≤ (dumpArrTail xs).length := by
  induction xs with
  | nil => simp [jsizeL, dumpArrTail]
  | cons y ys ih =>
    have h1 := h y (by simp)
    have h2 := ih (fun z hz => h z (by simp [hz]))
    rw [show jsizeL (y :: ys) = 1 + jsizeV y + jsizeL ys from rfl,
      show dumpArrTail (y :: ys) = ',' :: ' ' :: (dumpVal y ++ dumpArrTail ys) from rfl]
    simp
    omega

lemma jsizeM_le_objTail (ms : List (String × Json))
    (h : ∀ m ∈ ms, jsizeV m.2 ≤ (dumpVal m.2).length) :
    jsizeM ms ≤ (dumpObjTail ms).length := by
  induction ms with
  | nil => simp [jsizeM, dumpObjTail]
  | cons m0 ms0 ih =>
    obtain ⟨k, v⟩ := m0
    have h1 := h (k, v) (by simp)
    have h2 := ih (fun z hz => h z (by simp [hz]))
    rw [show jsizeM ((k, v) :: ms0) = 1 + jsizeV v + jsizeM ms0 from rfl,
      show dumpObjTail ((k, v) :: ms0) =
        ',' :: ' ' :: (dumpMember (k, v) ++ dumpObjTail ms0) from rfl,
      show dumpMember (k, v) = '"' :: (escape k.toList ++ ['"', ':', ' '] ++ dumpVal v)
        from rfl]
    simp at h1 ⊢
    omega

lemma jsizeV_le_dumpLen : ∀ (N : Nat) (v : Json), jsizeV v ≤ N →
    jsizeV v ≤ (dumpVal v).length := by
  intro N
  induction N with
  | zero => intro v h; exact absurd (Nat.le_trans (jsizeV_pos v) h) (by omega)
  | succ N ih =>
    intro v hsz
    cases v with
    | null => simp [jsizeV, dumpVal]
    | bool b => cases b <;> simp [jsizeV, dumpVal]
    | num i =>
      rw [show jsizeV (.num i) = 1 from rfl]
      cases i with
      | ofNat n =>
        rw [show dumpVal (.num (Int.ofNat n)) = natChars n from rfl]
        have := natChars_ne_nil n
        cases hn : natChars n with
        | nil => exact absurd hn this
        | cons a l => simp
      | negSucc m =>
        rw [show dumpVal (.num (Int.negSucc m)) = '-' :: natChars (m + 1) from rfl]
        simp
    | str s =>
      rw [show jsizeV (.str s) = 1 from rfl,
        show dumpVal (.str s) = '"' :: (escape s.toList ++ ['"']) from rfl]
      simp
    | arr l =>
      cases l with
      | nil => simp [jsizeV, jsizeL, dumpVal]
      | cons x xs =>
        have hszl : jsizeL (x :: xs) ≤ N := by
          rw [show jsizeV (.arr (x :: xs)) = 1 + jsizeL (x :: xs) from rfl] at hsz
          omega
        have hall : ∀ y ∈ x :: xs, jsizeV y ≤ (dumpVal y).length := fun y hy =>
          ih y (Nat.le_trans (jsizeV_mem_le_L hy) hszl)
        have h1 := hall x (by simp)
        have h2 := jsizeL_le_arrTail xs (fun z hz => hall z (by simp [hz]))
        rw [show jsizeV (.arr (x :: xs)) = 1 + (1 + jsizeV x + jsizeL xs) from rfl,
          show dumpVal (.arr (x :: xs)) =
            '[' :: (dumpVal x ++ dumpArrTail xs ++ [']']) from rfl]
        simp
        omega
    | obj l =>
      cases l with
      | nil => simp [jsizeV, jsizeM, dumpVal]
      | cons m0 ms =>
        obtain ⟨k, v⟩ := m0
        have hszm : jsizeM ((k, v) :: ms) ≤ N := by
          rw [show jsizeV (.obj ((k, v) :: ms)) = 1 + jsizeM ((k, v) :: ms) from rfl] at hsz
          omega
        have hall : ∀ m ∈ (k, v) :: ms, jsizeV m.2 ≤ (dumpVal m.2).length := fun m hm =>
          ih m.2 (Nat.le_trans (jsizeV_mem_le_M hm) hszm)
        have h1 := hall (k, v) (by simp)
        have h2 := jsizeM_le_objTail ms (fun z hz => hall z (by simp [hz]))
        rw [show jsizeV (.obj ((k, v) :: ms)) = 1 + (1 + jsizeV v + jsizeM ms) from rfl,
          show dumpVal (.obj ((k, v) :: ms)) =
            '{' :: (dumpMember (k, v) ++ dumpObjTail ms ++ ['}']) from rfl,
          show dumpMember (k, v) = '"' :: (escape k.toList ++ ['"', ':', ' '] ++ dumpVal v)
            from rfl]
        simp at h1 ⊢
        omega

/-- Parsing inverts printing on every value of Python shape: the
serialize/parse round-trip of `json.dumps` then `json.loads` is lossless. -/
theorem json_loads_dumps (v : Json) (h : pyShaped v = true) :
    json_loads (json_dumps v) = some v := by
  have hfuel : jsizeV v ≤ (dumpVal v).length + 1 :=
    Nat.le_succ_of_le (jsizeV_le_dumpLen (jsizeV v) v (Nat.le_refl _))
  have h2 : parseVal ((dumpVal v).length + 1) (dumpVal v ++ []) = some (v, []) :=
    parseVal_dump _ v [] hfuel h headNotDigit_nil
  rw [List.append_nil] at h2
  have h1 : skipWs (dumpVal v) = dumpVal v := by
    obtain ⟨c, cs, hv, hws, _⟩ := dumpVal_head v
    rw [hv]
    exact skipWs_cons_of _ hws
  unfold json_loads json_dumps
  rw [show (String.mk (dumpVal v)).toList = dumpVal v from rfl, h1, h2]
  simp [skipWs]

/-! ## Log-line lemmas: dumped entries occupy one clean line -/

lemma hexDigChar_ne_newline {d : Nat} (hd : d < 16) : hexDigChar d ≠ '\n' := by
  intro he
  have h := congrArg Char.toNat he
  rw [toNat_hexDigChar hd, show ('\n' : Char).toNat = 10 from rfl] at h
  by_cases h10 : d < 10
  · rw [if_pos h10] at h
    omega
  · rw [if_neg h10] at h
    omega

lemma newline_not_mem_escChar (c : Char) : '\n' ∉ escChar c := by
  unfold escChar
  split_ifs with h1 h2 h3 h4 h5 h6 h7 h8
  · decide
  · decide
  · decide
  · decide
  · decide
  · decide
  · decide
  · intro hm
    simp at hm
    rcases hm with h | h
    · exact hexDigChar_ne_newline (by omega) h.symm
    · exact hexDigChar_ne_newline (by omega) h.symm
  · intro hm
    simp at hm
    apply h8
    rw [← hm]
    decide

lemma newline_not_mem_escape (s : List Char) : '\n' ∉ escape s := by
  induction s with
  | nil => simp [escape]
  | cons c cs ih =>
    rw [show escape (c :: cs) = escChar c ++ escape cs from rfl]
    intro hm
    rcases List.mem_append.mp hm with h | h
    · exact newline_not_mem_escChar c h
    · exact ih h

lemma newline_not_mem_natChars (n : Nat) : '\n' ∉ natChars n := by
  intro hm
  obtain ⟨d, hd, he⟩ := mem_natChars n _ hm
  exact digitChar_ne hd (by decide) he.symm

lemma newline_arrTail (xs : List Json) (h : ∀ y ∈ xs, '\n' ∉ dumpVal y) :
    '\n' ∉ dumpArrTail xs := by
  induction xs with
  | nil => simp [dumpArrTail]
  | cons y ys ih =>
    rw [show dumpArrTail (y :: ys) = ',' :: ' ' :: (dumpVal y ++ dumpArrTail ys) from rfl]
    intro hm
    simp at hm
    rcases hm with h0 | h0
    · exact h y (by simp) h0
    · exact ih (fun z hz => h z (by simp [hz])) h0

lemma newline_member (k : String) (v : Json) (hv : '\n' ∉ dumpVal v) :
    '\n' ∉ dumpMember (k, v) := by
  rw [show dumpMember (k, v) = '"' :: (escape k.toList ++ ['"', ':', ' '] ++ dumpVal v)
    from rfl]
  intro hm
  simp at hm
  rcases hm with h0 | h0
  · exact newline_not_mem_escape _ h0
  · exact hv h0

lemma newline_objTail (ms : List (String × Json)) (h : ∀ m ∈ ms, '\n' ∉ dumpVal m.2) :
    '\n' ∉ dumpObjTail ms := by
  induction ms with
  | nil => simp [dumpObjTail]
  | cons m0 ms0 ih =>
    obtain ⟨k, v⟩ := m0
    rw [show dumpObjTail ((k, v) :: ms0) =
      ',' :: ' ' :: (dumpMember (k, v) ++ dumpObjTail ms0) from rfl]
    intro hm
    simp at hm
    rcases hm with h0 | h0
    · exact newline_member k v (h (k, v) (by simp)) h0
    · exact ih (fun z hz => h z (by simp [hz])) h0

lemma dumpVal_no_newline : ∀ (N : Nat) (v : Json), jsizeV v ≤ N → '\n' ∉ dumpVal v := by
  intro N
  induction N with
  | zero => intro v h; exact absurd (Nat.le_trans (jsizeV_pos v) h) (by omega)
  | succ N ih =>
    intro v hsz
    cases v with
    | null => decide
    | bool b => cases b <;> decide
    | num i =>
      cases i with
      | ofNat n =>
        rw [show dumpVal (.num (Int.ofNat n)) = natChars n from rfl]
        exact newline_not_mem_natChars n
      | negSucc m =>
        rw [show dumpVal (.num (Int.negSucc m)) = '-' :: natChars (m + 1) from rfl]
        intro hm
        simp at hm
        exact newline_not_mem_natChars (m + 1) hm
    | str s =>
      rw [show dumpVal (.str s) = '"' :: (escape s.toList ++ ['"']) from rfl]
      intro hm
      simp at hm
      exact newline_not_mem_escape _ hm
    | arr l =>
      cases l with
      | nil => decide
      | cons x xs =>
        have hszl : jsizeL (x :: xs) ≤ N := by
          rw [show jsizeV (.arr (x :: xs)) = 1 + jsizeL (x :: xs) from rfl] at hsz
          omega
        have hall : ∀ y ∈ x :: xs, '\n' ∉ dumpVal y := fun y hy =>
          ih y (Nat.le_trans (jsizeV_mem_le_L hy) hszl)
        rw [show dumpVal (.arr (x :: xs)) =
          '[' :: (dumpVal x ++ dumpArrTail xs ++ [']']) from rfl]
        intro hm
        simp at hm
        rcases hm with h0 | h0
        · exact hall x (by simp) h0
        · exact newline_arrTail xs (fun z hz => hall z (by simp [hz])) h0
    | obj l =>
      cases l with
      | nil => decide
      | cons m0 ms =>
        obtain ⟨k, v⟩ := m0
        have hszm : jsizeM ((k, v) :: ms) ≤ N := by
          rw [show jsizeV (.obj ((k, v) :: ms)) = 1 + jsizeM ((k, v) :: ms) from rfl] at hsz
          omega
        have hall : ∀ m ∈ (k, v) :: ms, '\n' ∉ dumpVal m.2 := fun m hm =>
          ih m.2 (Nat.le_trans (jsizeV_mem_le_M hm) hszm)
        rw [show dumpVal (.obj ((k, v) :: ms)) =
          '{' :: (dumpMember (k, v) ++ dumpObjTail ms ++ ['}']) from rfl]
        intro hm
        simp at hm
        rcases hm with h0 | h0
        · exact newline_member k v (hall (k, v) (by simp)) h0
        · exact newline_objTail ms (fun z hz => hall z (by simp [hz])) h0

lemma dumpVal_no_newline' (v : Json) : '\n' ∉ dumpVal v :=
  dumpVal_no_newline (jsizeV v) v (Nat.le_refl _)

lemma stripChars_of_ends (c1 c2 : Char) (mid : List Char)
    (h1 : isPySpace c1 = false) (h2 : isPySpace c2 = false) :
    stripChars (c1 :: (mid ++ [c2])) = c1 :: (mid ++ [c2]) := by
  unfold stripChars
  rw [List.dropWhile_cons, if_neg (by simp [h1]),
    show (c1 :: (mid ++ [c2])).reverse = c2 :: (mid.reverse ++ [c1]) by simp,
    List.dropWhile_cons, if_neg (by simp [h2])]
  simp

lemma stripChars_obj_dump (m0 : String × Json) (ms : List (String × Json)) :
    stripChars (dumpVal (.obj (m0 :: ms))) = dumpVal (.obj (m0 :: ms)) := by
  rw [show dumpVal (.obj (m0 :: ms)) =
    '{' :: ((dumpMember m0 ++ dumpObjTail ms) ++ ['}']) by
      rw [show dumpVal (.obj (m0 :: ms)) =
        '{' :: (dumpMember m0 ++ dumpObjTail ms ++ ['}']) from rfl]]
  exact stripChars_of_ends _ _ _ (by decide) (by decide)

/-! ## Splitting a file into lines -/

lemma splitLines_cons_ne {c : Char} (hc : c ≠ '\n') (Y : List Char) :
    splitLines (c :: Y) =
      (match splitLines Y with
       | [] => [[c]]
       | l :: ls => (c :: l) :: ls) := by
  conv_lhs => unfold splitLines
  rw [if_neg hc]

lemma splitLines_newline_ne_nil (a : List Char) : splitLines (a ++ ['\n']) ≠ [] := by
  induction a with
  | nil => simp [splitLines]
  | cons c a ih =>
    show splitLines (c :: (a ++ ['\n'])) ≠ []
    unfold splitLines
    split
    · simp
    · split <;> simp

lemma splitLines_single {l : List Char} (h : '\n' ∉ l) : splitLines (l ++ ['\n']) = [l] := by
  induction l with
  | nil => rfl
  | cons c cs ih =>
    have hc : c ≠ '\n' := fun he => h (by simp [he])
    show splitLines (c :: (cs ++ ['\n'])) = [c :: cs]
    unfold splitLines
    rw [if_neg hc, ih (fun hm => h (by simp [hm]))]

lemma splitLines_append (a X : List Char) :
    splitLines (a ++ ('\n' :: X)) = splitLines (a ++ ['\n']) ++ splitLines X := by
  induction a with
  | nil =>
    show splitLines ('\n' :: X) = splitLines ['\n'] ++ splitLines X
    rw [show splitLines ('\n' :: X) = [] :: splitLines X from rfl,
      show splitLines ['\n'] = [[]] from rfl]
    simp
  | cons c a ih =>
    by_cases hc : c = '\n'
    · subst hc
      show splitLines ('\n' :: (a ++ ('\n' :: X))) =
        splitLines ('\n' :: (a ++ ['\n'])) ++ splitLines X
      rw [show splitLines ('\n' :: (a ++ ('\n' :: X))) =
          [] :: splitLines (a ++ ('\n' :: X)) from rfl,
        show splitLines ('\n' :: (a ++ ['\n'])) = [] :: splitLines (a ++ ['\n']) from rfl,
        ih]
      simp
    · obtain ⟨l0, ls0, hsp⟩ : ∃ l0 ls0, splitLines (a ++ ['\n']) = l0 :: ls0 := by
        cases hl : splitLines (a ++ ['\n']) with
        | nil => exact absurd hl (splitLines_newline_ne_nil a)
        | cons l0 ls0 => exact ⟨l0, ls0, rfl⟩
      show splitLines (c :: (a ++ ('\n' :: X))) =
        splitLines (c :: (a ++ ['\n'])) ++ splitLines X
      rw [splitLines_cons_ne hc, splitLines_cons_ne hc, ih, hsp]
      simp

/-! ## Reader lemmas -/

lemma load_logs_go_blank (path : String) (ts : Nat → String) :
    ∀ (lines : List (List Char)) (k e : Nat),
      (∀ l ∈ lines, stripChars l = []) → load_logs_go path ts lines k e = ([], []) := by
  intro lines
  induction lines with
  | nil => intro k e _; rfl
  | cons l ls ih =>
    intro k e h
    unfold load_logs_go
    rw [if_pos (h l (by simp))]
    exact ih (k + 1) e (fun z hz => h z (by simp [hz]))

lemma load_logs_go_snoc (path : String) (ts : Nat → String) :
    ∀ (lines : List (List Char)) (line : List Char) (v : Json) (k e : Nat),
      stripChars line ≠ [] → json_loads (String.mk (stripChars line)) = some v →
      load_logs_go path ts (lines ++ [line]) k e =
        ((load_logs_go path ts lines k e).1 ++ [v],
         (load_logs_go path ts lines k e).2) := by
  intro lines
  induction lines with
  | nil =>
    intro line v k e hne hv
    show load_logs_go path ts [line] k e = _
    unfold load_logs_go
    rw [if_neg hne, hv]
    rfl
  | cons l ls ih =>
    intro line v k e hne hv
    show load_logs_go path ts (l :: (ls ++ [line])) k e = _
    unfold load_logs_go
    by_cases hb : stripChars l = []
    · rw [if_pos hb, if_pos hb]
      exact ih line v (k + 1) e hne hv
    · rw [if_neg hb, if_neg hb]
      cases hjl : json_loads (String.mk (stripChars l)) with
      | some w =>
        rw [ih line v (k + 1) e hne hv]
        simp
      | none =>
        rw [ih line v (k + 1) (e + 1) hne hv]

lemma load_logs_go_nil (path : String) (ts : Nat → String) (k e : Nat) :
    load_logs_go path ts [] k e = ([], []) := rfl

lemma load_logs_go_cons_some (path : String) (ts : Nat → String) (l : List Char)
    (lines : List (List Char)) (k e : Nat) (v : Json)
    (hne : stripChars l ≠ []) (hv : json_loads (String.mk (stripChars l)) = some v) :
    load_logs_go path ts (l :: lines) k e =
      (v :: (load_logs_go path ts lines (k + 1) e).1,
       (load_logs_go path ts lines (k + 1) e).2) := by
  conv_lhs => unfold load_logs_go
  rw [if_neg hne, hv]

lemma load_logs_go_cons_none (path : String) (ts : Nat → String) (l : List Char)
    (lines : List (List Char)) (k e : Nat)
    (hne : stripChars l ≠ []) (hv : json_loads (String.mk (stripChars l)) = none) :
    load_logs_go path ts (l :: lines) k e =
      ((load_logs_go path ts lines (k + 1) (e + 1)).1,
       loadErrEntry path (ts e) k :: (load_logs_go path ts lines (k + 1) (e + 1)).2) := by
  conv_lhs => unfold load_logs_go
  rw [if_neg hne, hv]

lemma json_loads_empty : json_loads (String.mk []) = none := rfl

/-! ## UUID rendering lemmas -/

lemma hexPad_length : ∀ w n, (hexPad w n).length = w := by
  intro w
  induction w with
  | zero => intro n; rfl
  | succ w ih =>
    intro n
    rw [show hexPad (w + 1) n = hexPad w (n / 16) ++ [hexDigChar (n % 16)] from rfl]
    simp [ih]

lemma hexDigChar_inj {a b : Nat} (ha : a < 16) (hb : b < 16)
    (h : hexDigChar a = hexDigChar b) : a = b := by
  have ht := congrArg Char.toNat h
  rw [toNat_hexDigChar ha, toNat_hexDigChar hb] at ht
  split_ifs at ht <;> omega

lemma hexPad_inj : ∀ w n m, n < 16 ^ w → m < 16 ^ w → hexPad w n = hexPad w m → n = m := by
  intro w
  induction w with
  | zero =>
    intro n m hn hm _
    simp [pow_zero] at hn hm
    omega
  | succ w ih =>
    intro n m hn hm h
    rw [show hexPad (w + 1) n = hexPad w (n / 16) ++ [hexDigChar (n % 16)] from rfl,
      show hexPad (w + 1) m = hexPad w (m / 16) ++ [hexDigChar (m % 16)] from rfl] at h
    obtain ⟨h1, h2⟩ := List.append_inj h (by rw [hexPad_length, hexPad_length])
    have hd : n % 16 = m % 16 := hexDigChar_inj (by omega) (by omega) (by simpa using h2)
    have hpow : 16 ^ (w + 1) = 16 ^ w * 16 := pow_succ 16 w
    have hq : n / 16 = m / 16 := ih (n / 16) (m / 16) (by omega) (by omega) h1
    omega

lemma list_split_8_4_4_4 (h : List Char) :
    h = h.take 8 ++ ((h.drop 8).take 4 ++ ((h.drop 12).take 4 ++
      ((h.drop 16).take 4 ++ h.drop 20))) := by
  conv_lhs => rw [← List.take_append_drop 8 h]
  congr 1
  conv_lhs => rw [← List.take_append_drop 4 (h.drop 8)]
  congr 1
  rw [List.drop_drop, show 4 + 8 = 12 from rfl]
  conv_lhs => rw [← List.take_append_drop 4 (h.drop 12)]
  congr 1
  rw [List.drop_drop, show 4 + 12 = 16 from rfl]
  conv_lhs => rw [← List.take_append_drop 4 (h.drop 16)]
  congr 1
  rw [List.drop_drop, show 4 + 16 = 20 from rfl]

lemma uuidStr_data (n : Nat) :
    (uuidStr n).data = (hexPad 32 n).take 8 ++ '-' :: (((hexPad 32 n).drop 8).take 4 ++
      '-' :: (((hexPad 32 n).drop 12).take 4 ++ '-' :: (((hexPad 32 n).drop 16).take 4 ++
      '-' :: (hexPad 32 n).drop 20))) := rfl

set_option maxHeartbeats 1000000 in
lemma uuidStr_inj {n m : Nat} (hn : n < 16 ^ 32) (hm : m < 16 ^ 32)
    (h : uuidStr n = uuidStr m) : n = m := by
  apply hexPad_inj 32 n m hn hm
  have hd := congrArg String.data h
  rw [uuidStr_data, uuidStr_data] at hd
  have hlA : ((hexPad 32 n).take 8).length = ((hexPad 32 m).take 8).length := by
    simp [hexPad_length]
  obtain ⟨p1, hd⟩ := List.append_inj hd hlA
  rw [List.cons.injEq] at hd
  obtain ⟨-, hd⟩ := hd
  have hlB : (((hexPad 32 n).drop 8).take 4).length =
      (((hexPad 32 m).drop 8).take 4).length := by
    simp [hexPad_length]
  obtain ⟨p2, hd⟩ := List.append_inj hd hlB
  rw [List.cons.injEq] at hd
  obtain ⟨-, hd⟩ := hd
  have hlC : (((hexPad 32 n).drop 12).take 4).length =
      (((hexPad 32 m).drop 12).take 4).length := by
    simp [hexPad_length]
  obtain ⟨p3, hd⟩ := List.append_inj hd hlC
  rw [List.cons.injEq] at hd
  obtain ⟨-, hd⟩ := hd
  have hlD : (((hexPad 32 n).drop 16).take 4).length =
      (((hexPad 32 m).drop 16).take 4).length := by
    simp [hexPad_length]
  obtain ⟨p4, p5⟩ := List.append_inj hd hlD
  rw [List.cons.injEq] at p5
  obtain ⟨-, p5⟩ := p5
  rw [list_split_8_4_4_4 (hexPad 32 n), list_split_8_4_4_4 (hexPad 32 m),
    p1, p2, p3, p4, p5]

lemma uuidStr_ne_empty (n : Nat) : uuidStr n ≠ "" := by
  intro he
  have hd := congrArg String.data he
  rw [uuidStr_data] at hd
  have hlen := congrArg List.length hd
  simp [hexPad_length] at hlen

/-! ## Filter and count lemmas -/

lemma sumCounts_countBump (c : List (Json × Nat)) (k : Json) :
    sumCounts (countBump c k) = sumCounts c + 1 := by
  induction c with
  | nil => rfl
  | cons p rest ih =>
    obtain ⟨k2, n⟩ := p
    unfold countBump
    split
    · simp [sumCounts]
      omega
    · rw [show sumCounts ((k2, n) :: countBump rest k) =
        n + sumCounts (countBump rest k) from by simp [sumCounts], ih]
      simp [sumCounts]
      omega

lemma sumCounts_foldl : ∀ (es : List (List (String × Json))) (acc : List (Json × Nat)),
    sumCounts (List.foldl (fun c e => countBump c (tipoKey e)) acc es) =
      sumCounts acc + es.length := by
  intro es
  induction es with
  | nil => intro acc; simp
  | cons e es ih =>
    intro acc
    rw [List.foldl_cons, ih, sumCounts_countBump]
    simp
    omega

lemma hasTipo_iff {e : List (String × Json)} {t : String} :
    hasTipo e t = true ↔ objGet e "tipo" = some (.str t) := by
  unfold hasTipo
  cases hg : objGet e "tipo" with
  | none => simp
  | some v =>
    cases v <;> simp

lemma count_fold_unknown : ∀ (es : List (List (String × Json))) (n : Nat),
    (∀ e ∈ es, tipoKey e = .str "UNKNOWN") →
    List.foldl (fun c e => countBump c (tipoKey e)) [(Json.str "UNKNOWN", n)] es =
      [(Json.str "UNKNOWN", n + es.length)] := by
  intro es
  induction es with
  | nil => intro n _; simp
  | cons e es ih =>
    intro n h
    rw [List.foldl_cons, h e (by simp),
      show countBump [(Json.str "UNKNOWN", n)] (Json.str "UNKNOWN") =
        [(Json.str "UNKNOWN", n + 1)] from rfl,
      ih (n + 1) (fun z hz => h z (by simp [hz]))]
    simp
    omega

lemma load_logs_some (contents : List Char) (path : String) (ts : Nat → String) :
    load_logs (some contents) path ts = load_logs_go path ts (splitLines contents) 1 0 := rfl

/-! ## Claim theorems -/

/-- C6: `load_logs` on a nonexistent file yields the empty sequence and no
errors; a file whose every line is blank yields nothing; and for a 3-line
file whose second line is nonblank but not valid JSON, the reader returns
exactly the entries parsed from lines 1 and 3 in file order, printing one
ERROR entry that names line 2 and the path, and continuing past the bad
line. -/
theorem c6_load_logs_resilience :
    (∀ (path : String) (ts : Nat → String), load_logs none path ts = ([], [])) ∧
    (∀ (path : String) (ts : Nat → String) (contents : List Char),
      (∀ l ∈ splitLines contents, stripChars l = []) →
      load_logs (some contents) path ts = ([], [])) ∧
    (∀ (path : String) (ts : Nat → String) (l1 l2 l3 : List Char) (v1 v3 : Json),
      '\n' ∉ l1 → '\n' ∉ l2 → '\n' ∉ l3 →
      json_loads (String.mk (stripChars l1)) = some v1 →
      json_loads (String.mk (stripChars l2)) = none →
      stripChars l2 ≠ [] →
      json_loads (String.mk (stripChars l3)) = some v3 →
      load_logs (some (l1 ++ '\n' :: (l2 ++ '\n' :: (l3 ++ ['\n'])))) path ts =
        ([v1, v3], [loadErrEntry path (ts 0) 2])) := by
  refine ⟨fun path ts => rfl, ?_, ?_⟩
  · intro path ts contents h
    rw [load_logs_some]
    exact load_logs_go_blank path ts (splitLines contents) 1 0 h
  · intro path ts l1 l2 l3 v1 v3 h1 h2 h3 hv1 hv2 hne2 hv3
    have hne1 : stripChars l1 ≠ [] := by
      intro hb
      rw [hb, json_loads_empty] at hv1
      cases hv1
    have hne3 : stripChars l3 ≠ [] := by
      intro hb
      rw [hb, json_loads_empty] at hv3
      cases hv3
    have hsp : splitLines (l1 ++ '\n' :: (l2 ++ '\n' :: (l3 ++ ['\n']))) =
        [l1, l2, l3] := by
      rw [splitLines_append, splitLines_single h1, splitLines_append,
        splitLines_single h2, splitLines_single h3]
      rfl
    rw [load_logs_some, hsp, load_logs_go_cons_some path ts l1 _ 1 0 v1 hne1 hv1,
      load_logs_go_cons_none path ts l2 _ 2 0 hne2 hv2,
      load_logs_go_cons_some path ts l3 _ 3 1 v3 hne3 hv3,
      load_logs_go_nil]

/-- C7: a log entry written by `append_log_file` (the persist of one
`make_log_entry` result, a single clean line) and read back by `load_logs`
deserializes to a structurally equal object: the reader returns exactly the
previous entries followed by the appended entry, with no new errors. -/
theorem c7_log_roundtrip (tipo now now2 : String) (datos : List (String × Json))
    (path : String) (ts : Nat → String) (file : List Char)
    (hpy : pyShaped (make_log_entry tipo now datos) = true)
    (hfile : file = [] ∨ ∃ f0, file = f0 ++ ['\n']) :
    load_logs (some ((append_log_file (make_log_entry tipo now datos) path file true
        now2).1)) path ts =
      ((load_logs (some file) path ts).1 ++ [make_log_entry tipo now datos],
       (load_logs (some file) path ts).2) := by
  have happ : (append_log_file (make_log_entry tipo now datos) path file true now2).1 =
      file ++ (dumpVal (make_log_entry tipo now datos) ++ ['\n']) := rfl
  have hnl : '\n' ∉ dumpVal (make_log_entry tipo now datos) := dumpVal_no_newline' _
  have hstrip : stripChars (dumpVal (make_log_entry tipo now datos)) =
      dumpVal (make_log_entry tipo now datos) :=
    stripChars_obj_dump ("tipo", .str tipo)
      [("log_datos", .obj (("timestamp", .str now) :: datos))]
  have hparse : json_loads (String.mk (dumpVal (make_log_entry tipo now datos))) =
      some (make_log_entry tipo now datos) := json_loads_dumps _ hpy
  have hne : stripChars (dumpVal (make_log_entry tipo now datos)) ≠ [] := by
    rw [hstrip]
    obtain ⟨c, cs, hcc, _, _⟩ := dumpVal_head (make_log_entry tipo now datos)
    rw [hcc]
    simp
  rw [happ]
  rcases hfile with rfl | ⟨f0, rfl⟩
  · rw [show ([] : List Char) ++ (dumpVal (make_log_entry tipo now datos) ++ ['\n']) =
      dumpVal (make_log_entry tipo now datos) ++ ['\n'] by simp]
    rw [load_logs_some, load_logs_some, splitLines_single hnl,
      load_logs_go_cons_some path ts _ [] 1 0 _ hne (by rw [hstrip]; exact hparse),
      load_logs_go_nil]
    rfl
  · rw [load_logs_some, load_logs_some, show (f0 ++ ['\n']) ++ (dumpVal (make_log_entry tipo now datos) ++ ['\n']) =
        f0 ++ ('\n' :: (dumpVal (make_log_entry tipo now datos) ++ ['\n'])) by simp,
      splitLines_append, splitLines_single hnl,
      load_logs_go_snoc path ts _ _ _ 1 0 hne (by rw [hstrip]; exact hparse)]

/-- C1: a request whose normalized body lacks `tenant_id`, or has it but
lacks `pelicula_datos`, gets a 400 response whose JSON body names the
specific missing field, and the first console line is an ERROR entry
recording the missing field name and the normalized body. -/
theorem c1_missing_field_400 :
    (∀ (event : Json) (env : String → Option String) (o : Oracle) (file : List Char)
       (ms : List (String × Json)),
      getBody event = .obj ms → objGet ms "tenant_id" = none →
      (lambda_handler event env o file).outcome = .ok ⟨400,
        json_dumps (.obj [("error",
          .str ("missing required field: " ++ keyErrorStr "tenant_id"))])⟩ ∧
      (lambda_handler event env o file).printed.head? =
        some (make_log_entry "ERROR" o.t1
          [("action", .str "parse_input"),
           ("message", .str "missing required field in body"),
           ("missing_field", .str (keyErrorStr "tenant_id")),
           ("body", .obj ms)])) ∧
    (∀ (event : Json) (env : String → Option String) (o : Oracle) (file : List Char)
       (ms : List (String × Json)) (tenant : Json),
      getBody event = .obj ms → objGet ms "tenant_id" = some tenant →
      objGet ms "pelicula_datos" = none →
      (lambda_handler event env o file).outcome = .ok ⟨400,
        json_dumps (.obj [("error",
          .str ("missing required field: " ++ keyErrorStr "pelicula_datos"))])⟩ ∧
      (lambda_handler event env o file).printed.head? =
        some (make_log_entry "ERROR" o.t1
          [("action", .str "parse_input"),
           ("message", .str "missing required field in body"),
           ("missing_field", .str (keyErrorStr "pelicula_datos")),
           ("body", .obj ms)])) := by
  constructor
  · intro event env o file ms hbody hget
    have hres : lambda_handler event env o file =
        missingFieldResult o file (.obj ms) "tenant_id" := by
      unfold lambda_handler
      rw [hbody]
      simp only [hget]
    rw [hres]
    exact ⟨rfl, rfl⟩
  · intro event env o file ms tenant hbody hget hget2
    have hres : lambda_handler event env o file =
        missingFieldResult o file (.obj ms) "pelicula_datos" := by
      unfold lambda_handler
      rw [hbody]
      simp only [hget, hget2]
    rw [hres]
    exact ⟨rfl, rfl⟩

/-- C3: with both required fields present but no usable `TABLE_NAME` (unset
or empty), the handler answers 500 with the configuration-error body,
whatever the field values are, and logs an ERROR entry; and the
configuration check runs only after field validation, so a missing field
still yields the 400 field error even when `TABLE_NAME` is also absent. -/
theorem c3_config_error_500 :
    (∀ (event : Json) (env : String → Option String) (o : Oracle) (file : List Char)
       (ms : List (String × Json)) (tenant datos : Json),
      getBody event = .obj ms → objGet ms "tenant_id" = some tenant →
      objGet ms "pelicula_datos" = some datos →
      (env "TABLE_NAME" = none ∨ env "TABLE_NAME" = some "") →
      (lambda_handler event env o file).outcome = .ok ⟨500,
        json_dumps (.obj [("error",
          .str "server configuration error: TABLE_NAME missing")])⟩ ∧
      (lambda_handler event env o file).printed.head? =
        some (make_log_entry "ERROR" o.t1
          [("action", .str "env_check"),
           ("message", .str "TABLE_NAME not set in environment")])) ∧
    (∀ (event : Json) (env : String → Option String) (o : Oracle) (file : List Char)
       (ms : List (String × Json)),
      getBody event = .obj ms → objGet ms "tenant_id" = none →
      env "TABLE_NAME" = none →
      (lambda_handler event env o file).outcome = .ok ⟨400,
        json_dumps (.obj [("error",
          .str ("missing required field: " ++ keyErrorStr "tenant_id"))])⟩) := by
  constructor
  · intro event env o file ms tenant datos hbody hget hget2 henv
    have hres : lambda_handler event env o file =
        finishWith o file
          (make_log_entry "ERROR" o.t1
            [("action", .str "env_check"),
             ("message", .str "TABLE_NAME not set in environment")])
          500 (.obj [("error", .str "server configuration error: TABLE_NAME missing")]) := by
      unfold lambda_handler
      rw [hbody]
      rcases henv with henv | henv
      · simp only [hget, hget2, henv]
        simp
      · simp only [hget, hget2, henv]
        simp
    rw [hres]
    exact ⟨rfl, rfl⟩
  · intro event env o file ms hbody hget henv
    have hres : lambda_handler event env o file =
        missingFieldResult o file (.obj ms) "tenant_id" := by
      unfold lambda_handler
      rw [hbody]
      simp only [hget]
    rw [hres]
    rfl

/-- C4: a textual body that fails to parse as JSON is replaced by the empty
dict, so the handler answers with the standard 400 error naming `tenant_id`
(no parse error is surfaced), and the ERROR entry records the empty
normalized body. -/
theorem c4_unparseable_body_400 :
    ∀ (ms : List (String × Json)) (s : String) (env : String → Option String)
      (o : Oracle) (file : List Char),
      objGet ms "body" = some (.str s) → json_loads s = none →
      (lambda_handler (.obj ms) env o file).outcome = .ok ⟨400,
        json_dumps (.obj [("error",
          .str ("missing required field: " ++ keyErrorStr "tenant_id"))])⟩ ∧
      (lambda_handler (.obj ms) env o file).printed.head? =
        some (make_log_entry "ERROR" o.t1
          [("action", .str "parse_input"),
           ("message", .str "missing required field in body"),
           ("missing_field", .str (keyErrorStr "tenant_id")),
           ("body", .obj [])]) := by
  intro ms s env o file hbody hparse
  have hget : getBody (.obj ms) = .obj [] := by
    unfold getBody
    simp only [hbody, hparse]
  have hres : lambda_handler (.obj ms) env o file =
      missingFieldResult o file (.obj []) "tenant_id" := by
    unfold lambda_handler
    rw [hget]
    rfl
  rw [hres]
  exact ⟨rfl, rfl⟩

/-- C5 (evidence for the code bug): an event whose body is the JSON text of
a list reaches the subscript `body['tenant_id']` with a non-dict and raises
an uncaught `TypeError` instead of returning a response; nothing is logged
and the log file is untouched. -/
theorem c5_nonobject_body_raises :
    lambda_handler (.obj [("body", .str "[1, 2]")]) (fun _ => none)
      { uuidBits := 0, put := .success .null, appendOk := true, t1 := "", t2 := "" } [] =
      { outcome := .raised "TypeError", printed := [], file := [] } := rfl

/-- C10: when both required fields are missing, the subscript on
`tenant_id` fails first, so the 400 error always names `tenant_id`, and the
interpolated name is the `str` of the `KeyError`, i.e. the field name
wrapped in single quotes. -/
theorem c10_both_missing_names_tenant :
    ∀ (event : Json) (env : String → Option String) (o : Oracle) (file : List Char)
      (ms : List (String × Json)),
      getBody event = .obj ms → objGet ms "tenant_id" = none →
      objGet ms "pelicula_datos" = none →
      (lambda_handler event env o file).outcome = .ok ⟨400,
        json_dumps (.obj [("error",
          .str ("missing required field: " ++ (squote ++ "tenant_id" ++ squote)))])⟩ := by
  intro event env o file ms hbody hget _
  have hres : lambda_handler event env o file =
      missingFieldResult o file (.obj ms) "tenant_id" := by
    unfold lambda_handler
    rw [hbody]
    simp only [hget]
  rw [hres]
  rfl

/-- C2 as written is false: the successful 200 response stores and returns
the record built by `mkPelicula`, whose identifier field is named `uuid`,
not `id` — at a concrete successful request the returned record has no
`id` member at all, while the freshly generated identifier sits under
`uuid`. -/
theorem c2_id_field_counterexample :
    (lambda_handler (.obj [("body", .obj [("tenant_id", .str "t1"),
        ("pelicula_datos", .obj [("title", .str "X")])])])
      (fun k => if k = "TABLE_NAME" then some "tabla" else none)
      { uuidBits := 5, put := .success (.obj []), appendOk := true,
        t1 := "T1", t2 := "T2" } []).outcome =
      .ok ⟨200, json_dumps (.obj [("pelicula",
        .obj (mkPelicula (.str "t1") (uuidStr 5) (.obj [("title", .str "X")]))),
        ("dynamodb_response", .obj [])])⟩ ∧
    objGet (mkPelicula (.str "t1") (uuidStr 5) (.obj [("title", .str "X")])) "id" =
      none ∧
    objGet (mkPelicula (.str "t1") (uuidStr 5) (.obj [("title", .str "X")])) "uuid" =
      some (.str (uuidStr 5)) :=
  ⟨rfl, rfl, rfl⟩

/-- C2 (amended): on a request with both fields, configuration present and
a successful put, the handler returns 200 with a body containing the stored
record, whose `tenant_id` and `pelicula_datos` are the caller-supplied
values and whose identifier field, named `uuid`, carries the freshly
generated, non-empty identifier — and the identifier is distinct across
calls whose 128 random bits differ. -/
theorem c2_success_record_uuid :
    (∀ (event : Json) (env : String → Option String) (o : Oracle) (file : List Char)
       (ms : List (String × Json)) (tenant datos : Json) (tbl : String) (resp : Json),
      getBody event = .obj ms →
      objGet ms "tenant_id" = some tenant →
      objGet ms "pelicula_datos" = some datos →
      env "TABLE_NAME" = some tbl → tbl ≠ "" →
      o.put = .success resp →
      (lambda_handler event env o file).outcome = .ok ⟨200,
        json_dumps (.obj [
          ("pelicula", .obj (mkPelicula tenant (uuidStr o.uuidBits) datos)),
          ("dynamodb_response", resp)])⟩ ∧
      objGet (mkPelicula tenant (uuidStr o.uuidBits) datos) "tenant_id" = some tenant ∧
      objGet (mkPelicula tenant (uuidStr o.uuidBits) datos) "pelicula_datos" =
        some datos ∧
      objGet (mkPelicula tenant (uuidStr o.uuidBits) datos) "uuid" =
        some (.str (uuidStr o.uuidBits)) ∧
      uuidStr o.uuidBits ≠ "") ∧
    (∀ n m : Nat, n < 2 ^ 128 → m < 2 ^ 128 → n ≠ m → uuidStr n ≠ uuidStr m) := by
  constructor
  · intro event env o file ms tenant datos tbl resp hbody hget hget2 henv htbl hput
    have hcond : (decide (tbl ≠ "") = true) := by simp [htbl]
    have hres : lambda_handler event env o file =
        finishWith o file
          (make_log_entry "INFO" o.t1
            [("action", .str "create_movie"), ("status", .str "success"),
             ("pelicula", .obj (mkPelicula tenant (uuidStr o.uuidBits) datos)),
             ("dynamodb_response_metadata", respMetadata resp)])
          200 (.obj [("pelicula", .obj (mkPelicula tenant (uuidStr o.uuidBits) datos)),
            ("dynamodb_response", resp)]) := by
      unfold lambda_handler
      rw [hbody]
      simp only [hget, hget2, henv, hput, hcond, if_true]
    rw [hres]
    exact ⟨rfl, rfl, rfl, rfl, uuidStr_ne_empty o.uuidBits⟩
  · intro n m hn hm hne he
    have h1632 : (16 : Nat) ^ 32 = 2 ^ 128 := by norm_num
    have hn2 : n < 16 ^ 32 := by rw [h1632]; exact hn
    have hm2 : m < 16 ^ 32 := by rw [h1632]; exact hm
    exact hne (uuidStr_inj hn2 hm2 he)

/-- C8: summing the per-category counts of the ERROR-filtered entries gives
exactly the number of entries whose `tipo` is the string ERROR; the filter
is order-preserving (a sublist of the input); entries lacking `tipo` never
pass the filter; and a nonempty list of entries all lacking `tipo` is
counted entirely under the sentinel UNKNOWN key. -/
theorem c8_filter_count_agreement :
    (∀ entries : List (List (String × Json)),
      sumCounts (count_by_tipo (filter_by_tipo entries "ERROR")) =
        List.countP (fun e => hasTipo e "ERROR") entries) ∧
    (∀ (entries : List (List (String × Json))) (tipo : String),
      (filter_by_tipo entries tipo).Sublist entries) ∧
    (∀ (entries : List (List (String × Json))) (tipo : String)
       (e : List (String × Json)),
      e ∈ filter_by_tipo entries tipo → objGet e "tipo" ≠ none) ∧
    (∀ entries : List (List (String × Json)), entries ≠ [] →
      (∀ e ∈ entries, objGet e "tipo" = none) →
      count_by_tipo entries = [(.str "UNKNOWN", entries.length)]) := by
  refine ⟨?_, ?_, ?_, ?_⟩
  · intro entries
    unfold count_by_tipo
    rw [sumCounts_foldl]
    unfold filter_by_tipo
    rw [List.countP_eq_length_filter]
    simp [sumCounts]
  · intro entries tipo
    exact List.filter_sublist entries
  · intro entries tipo e he hnone
    have hf := (List.mem_filter.mp he).2
    unfold hasTipo at hf
    rw [hnone] at hf
    cases hf
  · intro entries hne hall
    cases entries with
    | nil => exact absurd rfl hne
    | cons e es =>
      unfold count_by_tipo
      rw [List.foldl_cons,
        show tipoKey e = .str "UNKNOWN" by unfold tipoKey; rw [hall e (by simp)]; rfl,
        show countBump [] (Json.str "UNKNOWN") = [(Json.str "UNKNOWN", 1)] from rfl,
        count_fold_unknown es 1 (fun z hz => by
          unfold tipoKey
          rw [hall z (by simp [hz])]
          rfl)]
      simp [Nat.add_comm]

/-- C9: a failing log-file append never propagates: with the write failing
the file is unchanged and exactly one secondary ERROR entry tagged with the
path goes to the console, with the write succeeding one line is appended
and nothing extra is printed, and the handler's response is the same
whatever the append outcome. -/
theorem c9_append_failure_contained :
    (∀ (entry : Json) (path : String) (file : List Char) (now : String),
      append_log_file entry path file false now = (file, [appendWarnEntry path now])) ∧
    (∀ (entry : Json) (path : String) (file : List Char) (now : String),
      append_log_file entry path file true now =
        (file ++ (dumpVal entry ++ ['\n']), [])) ∧
    (∀ (event : Json) (env : String → Option String) (u : Nat) (p : PutOutcome)
       (b1 b2 : Bool) (t1 t2 : String) (file : List Char),
      (lambda_handler event env ⟨u, p, b1, t1, t2⟩ file).outcome =
      (lambda_handler event env ⟨u, p, b2, t1, t2⟩ file).outcome) := by
  refine ⟨fun entry path file now => rfl, fun entry path file now => rfl, ?_⟩
  intro event env u p b1 b2 t1 t2 file
  unfold lambda_handler
  cases hb : getBody event with
  | obj ms =>
    cases hg : objGet ms "tenant_id" with
    | none =>
      simp only [hg]
      rfl
    | some tenant =>
      cases hg2 : objGet ms "pelicula_datos" with
      | none =>
        simp only [hg, hg2]
        rfl
      | some datos =>
        cases he : env "TABLE_NAME" with
        | none =>
          simp only [hg, hg2, he]
          rfl
        | some tbl =>
          by_cases ht : tbl = ""
          · subst ht
            simp only [hg, hg2, he]
            rfl
          · have hcond : (decide (tbl ≠ "") = true) := by simp [ht]
            simp only [hg, hg2, he, hcond, if_true]
            cases p <;> rfl
  | null => rfl
  | bool b => rfl
  | num i => rfl
  | str s => rfl
  | arr l => rfl

/-- Witness instantiating `c1_missing_field_400` at a body missing both
fields and at a body with `tenant_id` only. -/
theorem c1_missing_field_400_witness :
    (lambda_handler (.obj [("body", .obj [])]) (fun _ => none)
      ⟨0, .success .null, true, "T1", "T2"⟩ []).outcome = .ok ⟨400,
        json_dumps (.obj [("error",
          .str ("missing required field: " ++ keyErrorStr "tenant_id"))])⟩ ∧
    (lambda_handler (.obj [("body", .obj [("tenant_id", .str "t")])]) (fun _ => none)
      ⟨0, .success .null, true, "T1", "T2"⟩ []).outcome = .ok ⟨400,
        json_dumps (.obj [("error",
          .str ("missing required field: " ++ keyErrorStr "pelicula_datos"))])⟩ :=
  ⟨(c1_missing_field_400.1 (.obj [("body", .obj [])]) (fun _ => none)
      ⟨0, .success .null, true, "T1", "T2"⟩ [] [] rfl rfl).1,
   (c1_missing_field_400.2 (.obj [("body", .obj [("tenant_id", .str "t")])])
      (fun _ => none) ⟨0, .success .null, true, "T1", "T2"⟩ []
      [("tenant_id", .str "t")] (.str "t") rfl rfl rfl).1⟩

/-- Witness instantiating `c2_success_record_uuid` at a concrete successful
request and at the identifier pair 0 and 1. -/
theorem c2_success_record_uuid_witness :
    (lambda_handler (.obj [("body", .obj [("tenant_id", .str "t1"),
        ("pelicula_datos", .obj [("title", .str "X")])])])
      (fun k => if k = "TABLE_NAME" then some "tabla" else none)
      ⟨5, .success (.obj []), true, "T1", "T2"⟩ []).outcome = .ok ⟨200,
        json_dumps (.obj [
          ("pelicula", .obj (mkPelicula (.str "t1") (uuidStr 5) (.obj [("title", .str "X")]))),
          ("dynamodb_response", .obj [])])⟩ ∧
    uuidStr 0 ≠ uuidStr 1 :=
  ⟨(c2_success_record_uuid.1 (.obj [("body", .obj [("tenant_id", .str "t1"),
        ("pelicula_datos", .obj [("title", .str "X")])])])
      (fun k => if k = "TABLE_NAME" then some "tabla" else none)
      ⟨5, .success (.obj []), true, "T1", "T2"⟩ []
      [("tenant_id", .str "t1"), ("pelicula_datos", .obj [("title", .str "X")])]
      (.str "t1") (.obj [("title", .str "X")]) "tabla" (.obj [])
      rfl rfl rfl rfl (by decide) rfl).1,
   c2_success_record_uuid.2 0 1 (by norm_num) (by norm_num) (by decide)⟩

/-- Witness instantiating `c3_config_error_500` with both fields present
and the environment empty. -/
theorem c3_config_error_500_witness :
    (lambda_handler (.obj [("body", .obj [("tenant_id", .str "t"),
        ("pelicula_datos", .null)])]) (fun _ => none)
      ⟨0, .success .null, true, "T1", "T2"⟩ []).outcome = .ok ⟨500,
        json_dumps (.obj [("error",
          .str "server configuration error: TABLE_NAME missing")])⟩ :=
  (c3_config_error_500.1 (.obj [("body", .obj [("tenant_id", .str "t"),
      ("pelicula_datos", .null)])]) (fun _ => none)
    ⟨0, .success .null, true, "T1", "T2"⟩ []
    [("tenant_id", .str "t"), ("pelicula_datos", .null)] (.str "t") .null
    rfl rfl rfl (Or.inl rfl)).1

/-- Witness instantiating `c4_unparseable_body_400` at the textual body
from the spec scenario, which is not valid JSON. -/
theorem c4_unparseable_body_400_witness :
    (lambda_handler (.obj [("body", .str "\x7bnot valid json")]) (fun _ => none)
      ⟨0, .success .null, true, "T1", "T2"⟩ []).outcome = .ok ⟨400,
        json_dumps (.obj [("error",
          .str ("missing required field: " ++ keyErrorStr "tenant_id"))])⟩ :=
  (c4_unparseable_body_400 [("body", .str "\x7bnot valid json")] "\x7bnot valid json"
    (fun _ => none) ⟨0, .success .null, true, "T1", "T2"⟩ [] rfl rfl).1

/-- Witness instantiating `c6_load_logs_resilience` on a 3-line file whose
middle line is not valid JSON. -/
theorem c6_load_logs_resilience_witness :
    load_logs (some ("1".toList ++ '\n' :: ("bad".toList ++ '\n' :: ("null".toList ++ ['\n']))))
      "app.log" (fun _ => "TS") = ([.num 1, .null], [loadErrEntry "app.log" "TS" 2]) :=
  c6_load_logs_resilience.2.2 "app.log" (fun _ => "TS") "1".toList "bad".toList
    "null".toList (.num 1) .null (by decide) (by decide) (by decide) rfl rfl
    (by decide) rfl

/-- Witness instantiating `c7_log_roundtrip` on one INFO entry appended to
the empty file. -/
theorem c7_log_roundtrip_witness :
    load_logs (some ((append_log_file (make_log_entry "INFO" "t0" [("k", .str "v")])
        "app.log" [] true "t2").1)) "app.log" (fun _ => "TS") =
      ((load_logs (some ([] : List Char)) "app.log" (fun _ => "TS")).1 ++
        [make_log_entry "INFO" "t0" [("k", .str "v")]],
       (load_logs (some ([] : List Char)) "app.log" (fun _ => "TS")).2) :=
  c7_log_roundtrip "INFO" "t0" "t2" [("k", .str "v")] "app.log" (fun _ => "TS") []
    (by decide) (Or.inl rfl)

/-- Witness instantiating `c8_filter_count_agreement` on a nonempty list of
entries all lacking `tipo`. -/
theorem c8_filter_count_agreement_witness :
    count_by_tipo [[("a", Json.null)]] = [(.str "UNKNOWN", 1)] :=
  c8_filter_count_agreement.2.2.2 [[("a", Json.null)]] (List.cons_ne_nil _ _)
    (by
      intro e he
      simp only [List.mem_singleton] at he
      subst he
      rfl)

/-- Witness instantiating `c10_both_missing_names_tenant` on the empty
event, whose normalized body is the empty dict. -/
theorem c10_both_missing_names_tenant_witness :
    (lambda_handler (.obj []) (fun _ => none)
      ⟨0, .success .null, true, "T1", "T2"⟩ []).outcome = .ok ⟨400,
        json_dumps (.obj [("error",
          .str ("missing required field: " ++ (squote ++ "tenant_id" ++ squote)))])⟩ :=
  c10_both_missing_names_tenant (.obj []) (fun _ => none)
    ⟨0, .success .null, true, "T1", "T2"⟩ [] [] rfl rfl rfl

end CrearPelicula
